import Mathlib

/-
  Verification development for the "umbrella" file-system core of the beach
  repository (src/umbrella/src/fs.rs, cache.rs, device.rs, block_number.rs).

  Shallow embedding conventions:
  - BlockNumber and BlockOffset are plain Nat (the Rust newtypes only wrap u64;
    index(), From<u64>, Div, Rem act directly on the number).
  - Machine integers (u8, u16, u64) are Nat; where 8-bit truncation matters the
    model applies % 256 explicitly.
  - A BlockDevice's backing file is a list of blocks (each a list of bytes);
    a block never written reads back as zeros, exactly like the zero-filled
    file produced by BlockDevice::create.
  - Fallible Rust code returning device::Result is modelled with Res below;
    Rust panics (slice indexing out of bounds, assert! failures, division by
    zero on u64, nom to_result on Incomplete) are the Res.panicked outcome.
  - SystemTime::now() is passed in explicitly as a SystemTime argument.
-/

/-- The device::Error taxonomy of src/umbrella/src/device.rs lines 12-17.
The Parse, Bincode, Io and Size constructors are declared there.  The
Overflow and CacheInvalid variants are referenced by fs.rs line 388 and
cache.rs line 99 but their declaration is not among the provided sources;
they are modelled from the spec, section 7 (Overflow: logical file offset
exceeds the indirect tree's reachable range; CacheInvalid: a block was
accessed both as raw bytes and as pointers in one session).  Error payloads
other than the Size message are irrelevant to the claims and are dropped. -/
inductive ResError where
  | Parse
  | Bincode
  | Io
  | Size (msg : String)
  | Overflow
  | CacheInvalid
deriving DecidableEq

/-- Outcome of a fallible Rust computation: Ok, Err, or a panic. -/
inductive Res (α : Type) where
  | ok (a : α)
  | err (e : ResError)
  | panicked
deriving DecidableEq

def Res.getOrElse {α : Type} (r : Res α) (d : α) : α :=
  match r with
  | .ok a => a
  | .err _ => d
  | .panicked => d

/-- Message of the Size error raised by BlockMap::alloc (fs.rs line 88). -/
def outOfBlocksMsg : String := "out of blocks"

/-- Message of the Size error raised by BlockDevice::seek when the block
number is out of range (device.rs lines 163-167; the interpolated numbers of
the Rust format string are elided). -/
def seekRangeMsg : String := "create: block_count is less than the requested block number"

/-- Message of the Size error raised by BlockDevice::seek when the buffer
length differs from the block size (device.rs lines 173-177; interpolated
numbers elided). -/
def seekBufLenMsg : String := "read: buffer length does not equal block_size"

/-- Little-endian encoding of n into w bytes, as bincode with fixed-width
integers writes a u16/u32/u64. -/
def encLE : Nat → Nat → List Nat
  | 0, _ => []
  | w + 1, n => n % 256 :: encLE w (n / 256)

/-- Little-endian decoding of w bytes from the front of a list, as bincode
reads a fixed-width integer; fails when fewer than w bytes remain. -/
def decLE : Nat → List Nat → Option Nat
  | 0, _ => some 0
  | _ + 1, [] => none
  | w + 1, b :: rest => (decLE w rest).map (fun hi => b % 256 + 256 * hi)

/-- Bincode's sequential reader of one fixed-width little-endian integer:
the value together with the remaining input. -/
def readLE (w : Nat) (l : List Nat) : Option (Nat × List Nat) :=
  match decLE w l with
  | some v => some (v, l.drop w)
  | none => none

/-- Value of a little-endian byte list (used by Cache's from_u8
reinterpretation of a block as u64 block numbers). -/
def valLE (l : List Nat) : Nat := l.foldr (fun b acc => b % 256 + 256 * acc) 0

/-- The byte whose most-significant bit is the first of the eight given bits,
matching the bit_vec crate's packing in BitVec::to_bytes. -/
def byteOfBits (l : List Bool) : Nat :=
  l.foldl (fun acc b => 2 * acc + (if b then 1 else 0)) 0

/-- Pads a chunk of at most eight bits with false up to length eight. -/
def padTo8 (l : List Bool) : List Bool := l ++ List.replicate (8 - l.length) false

/-- Fuel-indexed helper of to_bytes; the fuel only bounds the recursion
depth (one byte per step) and never runs out when it starts at the bit
count. -/
def to_bytesF : Nat → List Bool → List Nat
  | 0, _ => []
  | fuel + 1, v =>
    if v = [] then [] else byteOfBits (padTo8 (v.take 8)) :: to_bytesF fuel (v.drop 8)

/-- BitVec::to_bytes of the bit_vec crate: bits packed eight per byte,
most-significant bit first, last byte padded with false bits. -/
def to_bytes (v : List Bool) : List Nat := to_bytesF v.length v

/-- The eight bits of a byte, most-significant first, as BitVec::from_bytes
unpacks them. -/
def bitsOfByte (b : Nat) : List Bool :=
  [b.testBit 7, b.testBit 6, b.testBit 5, b.testBit 4,
   b.testBit 3, b.testBit 2, b.testBit 1, b.testBit 0]

/-- BitVec::from_bytes of the bit_vec crate. -/
def from_bytes (bytes : List Nat) : List Bool := bytes.flatMap bitsOfByte

/-- Fuel-indexed helper of bytesToBlockNumbers; the fuel only bounds the
recursion depth (one block number per step). -/
def bytesToBlockNumbersF : Nat → List Nat → List Nat
  | 0, _ => []
  | fuel + 1, l =>
    if l = [] then [] else valLE (l.take 8) :: bytesToBlockNumbersF fuel (l.drop 8)

/-- Cache's from_u8 reinterpretation (cache.rs lines 35-56): the block's
bytes read as consecutive little-endian u64 block numbers. -/
def bytesToBlockNumbers (l : List Nat) : List Nat := bytesToBlockNumbersF l.length l

/-- Cache's to_u8 (cache.rs lines 16-33): block numbers back to bytes. -/
def blockNumbersToBytes (l : List Nat) : List Nat := (l.map (encLE 8)).flatten

/-- BlockNumber 0, reserved for the master block and used as the null
sentinel in pointer slots (block_number.rs line 20). -/
def MASTER_BLOCK_NUMBER : Nat := 0

/-- DeviceConfig of device.rs lines 73-78. -/
structure DeviceConfig where
  path : String
  block_size : Nat
  block_count : Nat
deriving DecidableEq

/-- BlockDevice of device.rs lines 109-112; the open file handle becomes the
list of blocks holding the file's bytes.  A block beyond the list (inside a
zero-filled region of the file) reads back as zeros. -/
structure BlockDevice where
  config : DeviceConfig
  data : List (List Nat)
deriving DecidableEq

/-- BlockDevice::read (device.rs lines 185-189) with the seek pre-checks of
lines 160-183: the caller's buffer length is passed as bufLen.  On success
returns the block's bytes. -/
def BlockDevice.readBlock (d : BlockDevice) (block_num : Nat) (bufLen : Nat) :
    Res (List Nat) :=
  if d.config.block_count ≤ block_num then .err (.Size seekRangeMsg)
  else if bufLen ≠ d.config.block_size then .err (.Size seekBufLenMsg)
  else .ok (d.data.getD block_num (List.replicate d.config.block_size 0))

/-- BlockDevice::write (device.rs lines 191-195) with the seek pre-checks.
Writing past the current end of the file extends it with zero blocks, as a
seek-then-write on a host file does. -/
def BlockDevice.writeBlock (d : BlockDevice) (block_num : Nat) (buf : List Nat) :
    Res BlockDevice :=
  if d.config.block_count ≤ block_num then .err (.Size seekRangeMsg)
  else if buf.length ≠ d.config.block_size then .err (.Size seekBufLenMsg)
  else .ok { d with data :=
    (d.data ++ List.replicate (block_num + 1 - d.data.length)
      (List.replicate d.config.block_size 0)).set block_num buf }

/-- Modelled from the spec: BlockDevice::block_numbers_per_block is called by
fs.rs lines 447 but its definition is not among the provided sources; spec
section 4.1 defines it as block_size / sizeof(BlockNumber) = block_size / 8. -/
def BlockDevice.block_numbers_per_block (d : BlockDevice) : Nat :=
  d.config.block_size / 8

/-- Modelled from the spec: BlockDevice::block_numbers_per_level is called by
fs.rs lines 391, 431 and 444 but its definition is not among the provided
sources; spec section 4.1 defines it as block_numbers_per_block() ^ level. -/
def BlockDevice.block_numbers_per_level (d : BlockDevice) (level : Nat) : Nat :=
  d.block_numbers_per_block ^ level

/-- A fresh device as produced by BlockDevice::create (device.rs lines
115-145): a zero-filled file of block_count blocks of block_size bytes. -/
def freshDevice (block_size block_count : Nat) : BlockDevice :=
  { config := { path := "d", block_size := block_size, block_count := block_count },
    data := List.replicate block_count (List.replicate block_size 0) }

/-- The SYNCED bit of MasterBlockFlags (fs.rs line 13). -/
def MasterBlockFlags.SYNCED : Nat := 128

/-- Bitflags set(flag, status): set the bit when status is true, clear it
otherwise (u8 arithmetic). -/
def setFlag (flags bit : Nat) (status : Bool) : Nat :=
  if status then flags ||| bit else flags &&& (255 ^^^ bit)

/-- Bitflags contains(flag) for a flag word. -/
def flagsContains (flags bit : Nat) : Bool := flags &&& bit == bit

/-- MasterBlock of fs.rs lines 17-25; flags is the raw u8 bit word. -/
structure MasterBlock where
  block_size : Nat
  block_count : Nat
  inode_count : Nat
  block_map : Nat
  inode_map : Nat
  flags : Nat
deriving DecidableEq

/-- MasterBlock::new (fs.rs lines 28-37). -/
def MasterBlock.new (block_size block_count inode_count : Nat) : MasterBlock :=
  { block_size := block_size
    block_count := block_count
    inode_count := inode_count
    block_map := 1
    inode_map := 2 + (block_count / block_size) / 8
    flags := MasterBlockFlags.SYNCED }

/-- MasterBlock::block_map_blocks (fs.rs lines 39-41). -/
def MasterBlock.block_map_blocks (mb : MasterBlock) : Nat :=
  1 + mb.block_count / mb.block_size / 8

/-- Bincode image of a MasterBlock: fields in declaration order, fixed-width
little-endian integers, bitflags as their raw byte (29 bytes total). -/
def serializeMasterBlock (mb : MasterBlock) : List Nat :=
  encLE 2 mb.block_size ++ encLE 8 mb.block_count ++ encLE 2 mb.inode_count ++
  encLE 8 mb.block_map ++ encLE 8 mb.inode_map ++ encLE 1 mb.flags

/-- Bincode serialize_into a zeroed buffer of the given length: fails with a
Bincode error when the image does not fit, otherwise the image padded with
the buffer's remaining zeros. -/
def serializeInto (len : Nat) (payload : List Nat) : Res (List Nat) :=
  if payload.length ≤ len then .ok (payload ++ List.replicate (len - payload.length) 0)
  else .err .Bincode

/-- Bincode deserialize_from for a MasterBlock: reads the six fields in
declaration order from the front of the buffer, ignoring trailing padding. -/
def deserializeMasterBlock (l : List Nat) : Option MasterBlock :=
  match readLE 2 l with
  | some (bs, l1) =>
    match readLE 8 l1 with
    | some (bc, l2) =>
      match readLE 2 l2 with
      | some (ic, l3) =>
        match readLE 8 l3 with
        | some (bm, l4) =>
          match readLE 8 l4 with
          | some (im, l5) =>
            match readLE 1 l5 with
            | some (fl, _) =>
              some { block_size := bs, block_count := bc, inode_count := ic,
                     block_map := bm, inode_map := im, flags := fl }
            | none => none
          | none => none
        | none => none
      | none => none
    | none => none
  | none => none

/-- MasterBlock::write (fs.rs lines 43-47): serialize into a block_size
buffer and write it at block 0. -/
def MasterBlock.write (mb : MasterBlock) (d : BlockDevice) : Res BlockDevice :=
  match serializeInto mb.block_size (serializeMasterBlock mb) with
  | .ok buf => d.writeBlock MASTER_BLOCK_NUMBER buf
  | .err e => .err e
  | .panicked => .panicked

/-- MasterBlock::write_sync_status (fs.rs lines 49-55): flip SYNCED on a
clone, persist it, and only then adopt the clone. -/
def MasterBlock.write_sync_status (mb : MasterBlock) (d : BlockDevice)
    (status : Bool) : Res (MasterBlock × BlockDevice) :=
  match MasterBlock.write
      { mb with flags := setFlag mb.flags MasterBlockFlags.SYNCED status } d with
  | .ok d2 => .ok ({ mb with flags := setFlag mb.flags MasterBlockFlags.SYNCED status }, d2)
  | .err e => .err e
  | .panicked => .panicked

/-- BlockMap of fs.rs lines 61-63: the used-blocks bit vector. -/
structure BlockMap where
  vec : List Bool
deriving DecidableEq

/-- BlockMap::new (fs.rs lines 66-70). -/
def BlockMap.new (block_count : Nat) : BlockMap :=
  { vec := List.replicate block_count false }

/-- BlockMap::set (fs.rs lines 72-74). -/
def BlockMap.set (m : BlockMap) (block_number : Nat) (b : Bool) : BlockMap :=
  { vec := m.vec.set block_number b }

/-- BlockMap::find_free (fs.rs lines 76-78): index of the first false bit. -/
def BlockMap.find_free (vec : List Bool) : Option Nat :=
  vec.findIdx? (fun b => b == false)

/-- BlockMap::alloc (fs.rs lines 80-91): take the lowest free bit, or the
Size "out of blocks" error when none remains. -/
def BlockMap.alloc (m : BlockMap) : Res Nat × BlockMap :=
  match BlockMap.find_free m.vec with
  | some i => (.ok i, m.set i true)
  | none => (.err (.Size outOfBlocksMsg), m)

/-- BlockMap::free (fs.rs lines 93-95). -/
def BlockMap.free (m : BlockMap) (block_number : Nat) : BlockMap :=
  m.set block_number false

/-- The INodeFlags bit constants (fs.rs lines 136-146). -/
def INodeFlags.FREE : Nat := 128

/-- The FILE flag bit (fs.rs line 140). -/
def INodeFlags.FILE : Nat := 64

/-- The DIR flag bit (fs.rs line 141). -/
def INodeFlags.DIR : Nat := 32

/-- The LINK flag bit (fs.rs line 142). -/
def INodeFlags.LINK : Nat := 16

/-- The PTR flag bit (fs.rs line 143). -/
def INodeFlags.PTR : Nat := 8

/-- The DATA flag bit (fs.rs line 144). -/
def INodeFlags.DATA : Nat := 4

/-- Result of a nom parser over the remaining input: Done with leftover
input, a parse error, or Incomplete (input ran out). -/
inductive NomResult (α : Type) where
  | Done (rest : List Char) (val : α)
  | NomError
  | Incomplete
deriving DecidableEq

/-- The parse_inode_flags nom parser (fs.rs lines 149-158): an alt of five
single-character parsers.  On empty input every branch is Incomplete; on a
non-matching first character every branch errors. -/
def parse_inode_flags : List Char → NomResult Nat
  | [] => .Incomplete
  | c :: rest =>
    if c = '0' then .Done rest INodeFlags.FREE
    else if c = 'f' then .Done rest INodeFlags.FILE
    else if c = 's' then .Done rest INodeFlags.LINK
    else if c = 'd' then .Done rest INodeFlags.PTR
    else if c = 'D' then .Done rest INodeFlags.DATA
    else .NomError

/-- INodeFlags::parse (fs.rs lines 160-165): nom's to_result maps Done to Ok
even with leftover input, Error to the Parse error, and panics on
Incomplete. -/
def INodeFlags.parse (s : List Char) : Res Nat :=
  match parse_inode_flags s with
  | .Done _ v => .ok v
  | .NomError => .err .Parse
  | .Incomplete => .panicked

/-- SystemTime as serde serializes it: seconds and nanoseconds since the
Unix epoch (u64 and u32). -/
structure SystemTime where
  secs : Nat
  nanos : Nat
deriving DecidableEq

/-- INode of fs.rs lines 175-184; flags and perms are raw bit words. -/
structure INode where
  cdate : SystemTime
  mdate : SystemTime
  flags : Nat
  perms : Nat
  length : Nat
  level : Nat
  block_ptrs : List Nat
deriving DecidableEq

/-- INode::new (fs.rs lines 186-198): a FREE inode with zeroed pointers. -/
def INode.new (now : SystemTime) : INode :=
  { cdate := now, mdate := now, flags := INodeFlags.FREE, perms := 0,
    length := 0, level := 0, block_ptrs := List.replicate 8 0 }

/-- Bincode image of a SystemTime (12 bytes). -/
def serializeTime (t : SystemTime) : List Nat := encLE 8 t.secs ++ encLE 4 t.nanos

/-- Bincode deserialization of a SystemTime.  Serde rejects a pair whose
epoch offset overflows when re-assembled (nanos beyond one second carry into
the seconds), so decoding fails at that bound. -/
def readTime (l : List Nat) : Option (SystemTime × List Nat) :=
  match readLE 8 l with
  | some (s, l1) =>
    match readLE 4 l1 with
    | some (n, l2) =>
      if s + n / 1000000000 < 2 ^ 64 then some ({ secs := s, nanos := n }, l2)
      else none
    | none => none
  | none => none

/-- Bincode image of an INode: fields in declaration order (100 bytes). -/
def serializeINode (n : INode) : List Nat :=
  serializeTime n.cdate ++ serializeTime n.mdate ++ encLE 1 n.flags ++
  encLE 2 n.perms ++ encLE 8 n.length ++ encLE 1 n.level ++
  (n.block_ptrs.map (encLE 8)).flatten

/-- Decode count consecutive little-endian u64 block numbers, returning
them with the remaining input. -/
def readPtrs : Nat → List Nat → Option (List Nat × List Nat)
  | 0, l => some ([], l)
  | k + 1, l =>
    match readLE 8 l with
    | some (p, l1) =>
      match readPtrs k l1 with
      | some (ps, l2) => some (p :: ps, l2)
      | none => none
    | none => none

/-- Bincode deserialize_from for an INode: the fields in declaration order,
ending with the eight-pointer array. -/
def decodeINode (l : List Nat) : Option INode :=
  match readTime l with
  | some (cd, l1) =>
    match readTime l1 with
    | some (md, l2) =>
      match readLE 1 l2 with
      | some (fl, l3) =>
        match readLE 2 l3 with
        | some (pm, l4) =>
          match readLE 8 l4 with
          | some (len, l5) =>
            match readLE 1 l5 with
            | some (lv, l6) =>
              match readPtrs 8 l6 with
              | some (ps, _) =>
                some { cdate := cd, mdate := md, flags := fl, perms := pm,
                       length := len, level := lv, block_ptrs := ps }
              | none => none
            | none => none
          | none => none
        | none => none
      | none => none
    | none => none
  | none => none

/-- INodeMap of fs.rs lines 200-202. -/
structure INodeMap where
  vec : List INode
deriving DecidableEq

/-- INodeMap::new (fs.rs lines 205-209): inode_count FREE inodes stamped
with the same now. -/
def INodeMap.new (inode_count : Nat) (now : SystemTime) : INodeMap :=
  { vec := List.replicate inode_count (INode.new now) }

/-- INodeMap::find_free (fs.rs lines 211-217): first slot whose flags are
exactly FREE. -/
def INodeMap.find_free (im : INodeMap) : Option Nat :=
  im.vec.findIdx? (fun node => node.flags == INodeFlags.FREE)

/-- INodeMap::alloc (fs.rs lines 219-226): claim the first FREE slot,
stamping mdate with now. -/
def INodeMap.alloc (im : INodeMap) (flags : Nat) (now : SystemTime) :
    Option Nat × INodeMap :=
  match im.find_free with
  | some i =>
      let node := im.vec.getD i (INode.new now)
      (some i, { vec := im.vec.set i { node with flags := flags, mdate := now } })
  | none => (none, im)

/-- INodeMap::free (fs.rs lines 236-238). -/
def INodeMap.free (im : INodeMap) (block_number : Nat) : INodeMap :=
  { vec := match im.vec.getD block_number (INode.new { secs := 0, nanos := 0 }) with
           | node => im.vec.set block_number { node with flags := INodeFlags.FREE } }

/-- CacheEntry of cache.rs lines 7-14. -/
inductive CacheEntry where
  | Block (block : List Nat)
  | Pointers (pointers : List Nat)
deriving DecidableEq

/-- CacheEntry::bytes (cache.rs lines 58-71): a Pointers entry is flattened
back to bytes via to_u8. -/
def CacheEntry.bytes : CacheEntry → List Nat
  | .Block block => block
  | .Pointers pointers => blockNumbersToBytes pointers

/-- Cache of cache.rs lines 75-78; the HashMap becomes an association list
keyed by block number, at most one entry per key. -/
structure Cache where
  entries : List (Nat × CacheEntry)
  device : BlockDevice
deriving DecidableEq

/-- Cache::new (cache.rs lines 81-86). -/
def Cache.new (device : BlockDevice) : Cache := { entries := [], device := device }

/-- HashMap lookup on the association list. -/
def findEntry (entries : List (Nat × CacheEntry)) (b : Nat) : Option CacheEntry :=
  (entries.find? (fun e => e.1 == b)).map (fun e => e.2)

/-- HashMap insert on the association list: replace the entry if the key is
present, otherwise add it. -/
def insertEntry (entries : List (Nat × CacheEntry)) (b : Nat) (v : CacheEntry) :
    List (Nat × CacheEntry) :=
  match entries with
  | [] => [(b, v)]
  | e :: rest => if e.1 = b then (b, v) :: rest else e :: insertEntry rest b v

/-- Cache::read (cache.rs lines 88-111): a cached Block is returned, a
cached Pointers entry is the CacheInvalid error, and a vacant entry reads
through the device and is inserted as Block. -/
def Cache.read (c : Cache) (block_num : Nat) : Res (List Nat) × Cache :=
  match findEntry c.entries block_num with
  | some (.Block block) => (.ok block, c)
  | some (.Pointers _) => (.err .CacheInvalid, c)
  | none =>
    match c.device.readBlock block_num c.device.config.block_size with
    | .ok block =>
        (.ok block, { c with entries := insertEntry c.entries block_num (.Block block) })
    | .err e => (.err e, c)
    | .panicked => (.panicked, c)

/-- Cache::read_pointers (cache.rs lines 113-140): symmetric to read; a
vacant entry reads through the device and is reinterpreted by from_u8, whose
assert demands a byte count divisible by eight. -/
def Cache.read_pointers (c : Cache) (block_num : Nat) : Res (List Nat) × Cache :=
  match findEntry c.entries block_num with
  | some (.Block _) => (.err .CacheInvalid, c)
  | some (.Pointers pointers) => (.ok pointers, c)
  | none =>
    match c.device.readBlock block_num c.device.config.block_size with
    | .ok block =>
        if block.length % 8 = 0 then
          let pointers := bytesToBlockNumbers block
          (.ok pointers,
           { c with entries := insertEntry c.entries block_num (.Pointers pointers) })
        else (.panicked, c)
    | .err e => (.err e, c)
    | .panicked => (.panicked, c)

/-- Cache::write_pointers (cache.rs lines 142-145): unconditional insert. -/
def Cache.write_pointers (c : Cache) (block_num : Nat) (pointers : List Nat) : Cache :=
  { c with entries := insertEntry c.entries block_num (.Pointers pointers) }

/-- FileSystem of fs.rs lines 274-279. -/
structure FileSystem where
  master_block : MasterBlock
  block_map : BlockMap
  inode_map : INodeMap
  cache : Cache
deriving DecidableEq

/-- Mount of fs.rs lines 281-284. -/
structure Mount where
  file_system : FileSystem
  clean_mount : Bool
deriving DecidableEq

/-- FileSystem::new (fs.rs lines 287-300): format the device in memory.
INODE_COUNT is 10; the blocks 0 .. block_map_blocks() + INODE_COUNT - 1 are
marked used by iterating Sequence::new(MASTER_BLOCK_NUMBER, claimed_blocks). -/
def FileSystem.new (device : BlockDevice) (now : SystemTime) : FileSystem :=
  let INODE_COUNT : Nat := 10
  let block_size := device.config.block_size
  let block_count := device.config.block_count
  let master_block := MasterBlock.new block_size block_count INODE_COUNT
  let claimed_blocks := master_block.block_map_blocks + INODE_COUNT
  let block_map :=
    (List.range claimed_blocks).foldl (fun m i => m.set i true) (BlockMap.new block_count)
  { master_block := master_block
    block_map := block_map
    inode_map := INodeMap.new INODE_COUNT now
    cache := Cache.new device }

/-- Fuel-indexed helper of writeFullChunks; the fuel only bounds the
recursion depth (at least one staged byte per step) and never runs out when
it starts at the byte count. -/
def writeFullChunksF : Nat → BlockDevice → Nat → Nat → List Nat →
    Res (BlockDevice × Nat × List Nat)
  | 0, d, block_number, chunkSize, bytes =>
    if chunkSize = 0 then
      (if bytes = [] then .ok (d, block_number, []) else .panicked)
    else .ok (d, block_number, bytes)
  | fuel + 1, d, block_number, chunkSize, bytes =>
    if chunkSize = 0 then
      (if bytes = [] then .ok (d, block_number, []) else .panicked)
    else if bytes.length < chunkSize then .ok (d, block_number, bytes)
    else
      match d.writeBlock block_number (bytes.take chunkSize) with
      | .ok d2 => writeFullChunksF fuel d2 (block_number + 1) chunkSize (bytes.drop chunkSize)
      | .err e => .err e
      | .panicked => .panicked

/-- The full-chunk loop of FileSystem::write (fs.rs lines 304-315): every
time the staging buffer of chunkSize bytes fills, it is written to the next
block.  Returns the device, the next block number, and the bytes left in the
staging buffer.  With a zero chunk size and any byte to stage, the Rust code
indexes into an empty buffer and panics. -/
def writeFullChunks (d : BlockDevice) (block_number : Nat) (chunkSize : Nat)
    (bytes : List Nat) : Res (BlockDevice × Nat × List Nat) :=
  writeFullChunksF bytes.length d block_number chunkSize bytes

/-- The inode loop of FileSystem::write (fs.rs lines 323-329): serialize
each inode into a block_size buffer and write it to consecutive blocks. -/
def writeINodes (d : BlockDevice) (block_number : Nat) (bs : Nat)
    (nodes : List INode) : Res BlockDevice :=
  match nodes with
  | [] => .ok d
  | node :: rest =>
    match serializeInto bs (serializeINode node) with
    | .ok buf =>
      match d.writeBlock block_number buf with
      | .ok d2 => writeINodes d2 (block_number + 1) bs rest
      | .err e => .err e
      | .panicked => .panicked
    | .err e => .err e
    | .panicked => .panicked

/-- The cache write-back loop of FileSystem::write (fs.rs lines 330-332). -/
def writeCacheEntries (d : BlockDevice) (entries : List (Nat × CacheEntry)) :
    Res BlockDevice :=
  match entries with
  | [] => .ok d
  | e :: rest =>
    match d.writeBlock e.1 e.2.bytes with
    | .ok d2 => writeCacheEntries d2 rest
    | .err e2 => .err e2
    | .panicked => .panicked

/-- FileSystem::write (fs.rs lines 302-334): stream the block map bitmap
into blocks starting at master_block.block_map (zero-padding the final
partial chunk), assert the cursor stayed below the inode table, write the
inode table, then write back every cache entry.  Returns the device. -/
def FileSystem.write (fs : FileSystem) : Res BlockDevice :=
  let mb := fs.master_block
  let bmBytes := to_bytes fs.block_map.vec
  match writeFullChunks fs.cache.device mb.block_map mb.block_size bmBytes with
  | .ok (d1, bn1, leftover) =>
    let afterPartial : Res BlockDevice :=
      if leftover = [] then .ok d1
      else d1.writeBlock bn1 (leftover ++ List.replicate (mb.block_size - leftover.length) 0)
    match afterPartial with
    | .ok d2 =>
      if bn1 < mb.inode_map then
        match writeINodes d2 mb.inode_map mb.block_size fs.inode_map.vec with
        | .ok d3 => writeCacheEntries d3 fs.cache.entries
        | .err e => .err e
        | .panicked => .panicked
      else .panicked
    | .err e => .err e
    | .panicked => .panicked
  | .err e => .err e
  | .panicked => .panicked

/-- FileSystem::close (fs.rs lines 368-371): flush, then persist
SYNCED=true.  Returns the final device state. -/
def FileSystem.close (fs : FileSystem) : Res BlockDevice :=
  match fs.write with
  | .ok d =>
    match fs.master_block.write_sync_status d true with
    | .ok r => .ok r.2
    | .err e => .err e
    | .panicked => .panicked
  | .err e => .err e
  | .panicked => .panicked

/-- The bitmap loop of FileSystem::read (fs.rs lines 340-347): read count
consecutive blocks and concatenate their bits. -/
def readBitmapBlocks (d : BlockDevice) (block_number : Nat) (count : Nat)
    (bs : Nat) : Res (List Bool) :=
  match count with
  | 0 => .ok []
  | k + 1 =>
    match d.readBlock block_number bs with
    | .ok bytes =>
      match readBitmapBlocks d (block_number + 1) k bs with
      | .ok bits => .ok (from_bytes bytes ++ bits)
      | .err e => .err e
      | .panicked => .panicked
    | .err e => .err e
    | .panicked => .panicked

/-- The inode loop of FileSystem::read (fs.rs lines 351-359): read and
deserialize count consecutive inode blocks. -/
def readINodes (d : BlockDevice) (block_number : Nat) (count : Nat)
    (bs : Nat) : Res (List INode) :=
  match count with
  | 0 => .ok []
  | k + 1 =>
    match d.readBlock block_number bs with
    | .ok bytes =>
      match decodeINode bytes with
      | some node =>
        match readINodes d (block_number + 1) k bs with
        | .ok nodes => .ok (node :: nodes)
        | .err e => .err e
        | .panicked => .panicked
      | none => .err .Bincode
    | .err e => .err e
    | .panicked => .panicked

/-- FileSystem::read (fs.rs lines 336-366): mount a device.  Deserialize the
master block from block 0 (a stored block_size of zero makes the later u64
divisions panic), rebuild the block map from block_map_blocks() consecutive
blocks truncated to block_count bits, assert the cursor did not pass the
inode table, rebuild the inode table, record clean_mount from the SYNCED
flag, and immediately persist SYNCED=false. -/
def FileSystem.read (device : BlockDevice) : Res Mount :=
  match device.readBlock MASTER_BLOCK_NUMBER device.config.block_size with
  | .ok mb_vec =>
    match deserializeMasterBlock mb_vec with
    | some master_block =>
      if master_block.block_size = 0 then .panicked
      else
        match readBitmapBlocks device master_block.block_map
              master_block.block_map_blocks master_block.block_size with
        | .ok bits =>
          if master_block.block_map + master_block.block_map_blocks ≤ master_block.inode_map then
            match readINodes device master_block.inode_map master_block.inode_count
                  master_block.block_size with
            | .ok nodes =>
              match master_block.write_sync_status device false with
              | .ok r =>
                .ok { file_system :=
                        { master_block := r.1,
                          block_map := { vec := bits.take master_block.block_count },
                          inode_map := { vec := nodes }, cache := Cache.new r.2 },
                      clean_mount := flagsContains master_block.flags MasterBlockFlags.SYNCED }
              | .err e => .err e
              | .panicked => .panicked
            | .err e => .err e
            | .panicked => .panicked
          else .panicked
        | .err e => .err e
        | .panicked => .panicked
    | none => .err .Bincode
  | .err e => .err e
  | .panicked => .panicked

/-- The rec helper of FileSystem::lookup_block_num_from_offset (fs.rs lines
376-402).  At level 0 the offset is bounds-checked (Overflow past the end,
None for the zero sentinel).  At level > 0 the child index offset / fanout
is used to index the eight-slot pointer array without a bounds check, which
panics out of range; a zero child pointer is a hole (None); otherwise the
child pointer block is fetched through the cache and descent continues. -/
def lookupRec (cache : Cache) (offset : Nat) (block_ptrs : List Nat) :
    Nat → Res (Option Nat) × Cache
  | 0 =>
    if offset < block_ptrs.length then
      let block_num := block_ptrs.getD offset 0
      if block_num = MASTER_BLOCK_NUMBER then (.ok none, cache)
      else (.ok (some block_num), cache)
    else (.err .Overflow, cache)
  | level + 1 =>
    let bnpl := cache.device.block_numbers_per_level (level + 1)
    if bnpl = 0 then (.panicked, cache)
    else
      let next_offset := offset % bnpl
      let next_block := offset / bnpl
      if h : next_block < block_ptrs.length then
        let next_block_index := block_ptrs.get ⟨next_block, h⟩
        if next_block_index = MASTER_BLOCK_NUMBER then (.ok none, cache)
        else
          match cache.read_pointers next_block_index with
          | (.ok next_block_ptrs, c2) => lookupRec c2 next_offset next_block_ptrs level
          | (.err e, c2) => (.err e, c2)
          | (.panicked, c2) => (.panicked, c2)
      else (.panicked, cache)

/-- FileSystem::lookup_block_num_from_offset (fs.rs lines 373-405).
INodeMap::get indexes the inode vector without a bounds check. -/
def FileSystem.lookup_block_num_from_offset (fs : FileSystem) (inode_num : Nat)
    (offset : Nat) : Res (Option Nat) × FileSystem :=
  if h : inode_num < fs.inode_map.vec.length then
    let inode := fs.inode_map.vec.get ⟨inode_num, h⟩
    match lookupRec fs.cache offset inode.block_ptrs inode.level with
    | (r, cache2) => (r, { fs with cache := cache2 })
  else (.panicked, fs)

/-- The rec helper of FileSystem::alloc_block_num_from_offset (fs.rs lines
410-442).  Like lookupRec, but at level 0 a zero slot is filled with a
freshly allocated block.  At level > 0 the descent operates on the local
copy of the child pointer block returned by Cache::read_pointers, and that
copy is dropped on return: the fourth component propagates only the caller's
own block_ptrs. -/
def allocRec (block_map : BlockMap) (cache : Cache) (offset : Nat)
    (block_ptrs : List Nat) :
    Nat → Res (Option Nat) × BlockMap × Cache × List Nat
  | 0 =>
    if offset < block_ptrs.length then
      let block_num := block_ptrs.getD offset 0
      if block_num = MASTER_BLOCK_NUMBER then
        match block_map.alloc with
        | (.ok new_block_num, bm2) =>
            (.ok (some new_block_num), bm2, cache, block_ptrs.set offset new_block_num)
        | (.err e, bm2) => (.err e, bm2, cache, block_ptrs)
        | (.panicked, bm2) => (.panicked, bm2, cache, block_ptrs)
      else (.ok (some block_num), block_map, cache, block_ptrs)
    else (.err .Overflow, block_map, cache, block_ptrs)
  | level + 1 =>
    let bnpl := cache.device.block_numbers_per_level (level + 1)
    if bnpl = 0 then (.panicked, block_map, cache, block_ptrs)
    else
      let next_offset := offset % bnpl
      let next_block := offset / bnpl
      if h : next_block < block_ptrs.length then
        let next_block_index := block_ptrs.get ⟨next_block, h⟩
        if next_block_index = MASTER_BLOCK_NUMBER then
          (.ok none, block_map, cache, block_ptrs)
        else
          match cache.read_pointers next_block_index with
          | (.ok next_block_ptrs, c2) =>
            match allocRec block_map c2 next_offset next_block_ptrs level with
            | (r, bm2, c3, _) => (r, bm2, c3, block_ptrs)
          | (.err e, c2) => (.err e, block_map, c2, block_ptrs)
          | (.panicked, c2) => (.panicked, block_map, c2, block_ptrs)
      else (.panicked, block_map, cache, block_ptrs)

/-- FileSystem::alloc_block_num_from_offset (fs.rs lines 407-462).  When the
offset is at or past the tree's reach (block_ptrs.len() * fanout^level) the
tree grows one level: a new pointer block receives the inode's pointers
(cached via write_pointers), and the inode's pointer array is reset to the
new block in slot 0.  Then the recursive descent runs and inode.length is
incremented on success (even when the descent returns None). -/
def FileSystem.alloc_block_num_from_offset (fs : FileSystem) (inode_num : Nat)
    (offset : Nat) : Res (Option Nat) × FileSystem :=
  if h : inode_num < fs.inode_map.vec.length then
    let inode0 := fs.inode_map.vec.get ⟨inode_num, h⟩
    let bnpl := fs.cache.device.block_numbers_per_level inode0.level
    let grown : Res (INode × BlockMap × Cache) :=
      if inode0.block_ptrs.length * bnpl ≤ offset then
        match fs.block_map.alloc with
        | (.ok new_block_num, bm2) =>
          let bnpb := fs.cache.device.block_numbers_per_block
          if inode0.block_ptrs.length ≤ bnpb then
            let new_block := inode0.block_ptrs ++
              List.replicate (bnpb - inode0.block_ptrs.length) MASTER_BLOCK_NUMBER
            let cache2 := fs.cache.write_pointers new_block_num new_block
            .ok ({ inode0 with
                     block_ptrs := (List.replicate 8 MASTER_BLOCK_NUMBER).set 0 new_block_num,
                     level := inode0.level + 1 },
                 bm2, cache2)
          else .panicked
        | (.err e, _) => .err e
        | (.panicked, _) => .panicked
      else .ok (inode0, fs.block_map, fs.cache)
    match grown with
    | .ok (inode1, bm1, cache1) =>
      match allocRec bm1 cache1 offset inode1.block_ptrs inode1.level with
      | (.ok r, bm2, cache2, ptrs2) =>
        let inode2 := { inode1 with block_ptrs := ptrs2, length := inode1.length + 1 }
        (.ok r, { fs with block_map := bm2, cache := cache2,
                          inode_map := { vec := fs.inode_map.vec.set inode_num inode2 } })
      | (.err e, bm2, cache2, ptrs2) =>
        let inode2 := { inode1 with block_ptrs := ptrs2 }
        (.err e, { fs with block_map := bm2, cache := cache2,
                           inode_map := { vec := fs.inode_map.vec.set inode_num inode2 } })
      | (.panicked, _, _, _) => (.panicked, fs)
    | .err e => (.err e, fs)
    | .panicked => (.panicked, fs)
  else (.panicked, fs)

/-- Repeated BlockMap::alloc: the list of the first n results together with
the final map (a session that only allocates). -/
def BlockMap.allocs : Nat → BlockMap → List (Res Nat) × BlockMap
  | 0, m => ([], m)
  | n + 1, m =>
    match m.alloc with
    | (r, m2) =>
      match BlockMap.allocs n m2 with
      | (rs, m3) => (r :: rs, m3)

/-- The successful value of an allocation result, if any. -/
def okValue : Res Nat → Option Nat
  | .ok b => some b
  | .err _ => none
  | .panicked => none

/-- A throwaway inode used only as the default of List.getD. -/
def dummyINode : INode := INode.new { secs := 0, nanos := 0 }

/-- The inode stored at slot i (INodeMap::get, fs.rs lines 228-230). -/
def inodeAt (fs : FileSystem) (i : Nat) : INode :=
  fs.inode_map.vec.getD i dummyINode

/-- The time stamp used for the concrete scenarios. -/
def now0 : SystemTime := { secs := 0, nanos := 0 }

/-- The device of scenario A of the spec: newfs mydev 16 128. -/
def dev16 : BlockDevice := freshDevice 128 16

/-- The freshly formatted file system on dev16. -/
def fsFresh16 : FileSystem := FileSystem.new dev16 now0

/-- fsFresh16 after INodeMap::alloc(FILE) claims inode 0. -/
def fsFile16 : FileSystem :=
  { fsFresh16 with inode_map := (fsFresh16.inode_map.alloc INodeFlags.FILE now0).2 }

/-- fsFile16 after alloc_block_num_from_offset(0, 8), which grows inode 0 to
level 1. -/
def fsAfterAlloc8 : FileSystem := (fsFile16.alloc_block_num_from_offset 0 8).2

/-- The result of the subsequent alloc_block_num_from_offset(0, 9). -/
def c1AllocResult : Res (Option Nat) := (fsAfterAlloc8.alloc_block_num_from_offset 0 9).1

/-- The state after the alloc at offset 9. -/
def fsAfterAlloc9 : FileSystem := (fsAfterAlloc8.alloc_block_num_from_offset 0 9).2

/-- The device produced by formatting dev16 and closing the file system. -/
def c3Device : BlockDevice := fsFresh16.close.getOrElse (freshDevice 1 1)

/-- The mount produced by re-reading the closed device. -/
def c3Mount : Mount :=
  (FileSystem.read c3Device).getOrElse { file_system := fsFresh16, clean_mount := false }

/-- The mount produced by a second read without an intervening close. -/
def c4Mount2 : Mount :=
  (FileSystem.read c3Mount.file_system.cache.device).getOrElse
    { file_system := fsFresh16, clean_mount := true }

/-- A small cache over a fresh two-block device of block size 8. -/
def c7cache : Cache := Cache.new (freshDevice 8 2)

/-- c7cache after block 1 has been read as pointers. -/
def c7afterPtrs : Cache := (c7cache.read_pointers 1).2

/-- c7cache after block 1 has been read as raw bytes. -/
def c7afterBlock : Cache := (c7cache.read 1).2

/-- The device left by closing the file system of the first mount without
further operations. -/
def c4CloseDevice : BlockDevice :=
  (c3Mount.file_system.close).getOrElse (freshDevice 1 1)

/-- The master block stored at block 0 of that device. -/
def c4ClosedMb : MasterBlock :=
  (deserializeMasterBlock (c4CloseDevice.data.getD 0 [])).getD (MasterBlock.new 1 1 1)
/-- The freshly formatted file system on a fresh device of the given
geometry. -/
def c3fsGen (bs bc : Nat) (now : SystemTime) : FileSystem :=
  FileSystem.new (freshDevice bs bc) now

/-- The device produced by formatting a fresh device of the given geometry
and closing the file system. -/
def c3closedDev (bs bc : Nat) (now : SystemTime) : BlockDevice :=
  (c3fsGen bs bc now).close.getOrElse (freshDevice 1 1)

/-- The mount produced by re-reading that closed device. -/
def c3remount (bs bc : Nat) (now : SystemTime) : Mount :=
  (FileSystem.read (c3closedDev bs bc now)).getOrElse
    { file_system := c3fsGen bs bc now, clean_mount := false }

/-- Claim C2: after FileSystem::new on the 16-block, 128-byte device the code
marks only blocks 0..10 used (block_map_blocks + inode_count = 11 blocks,
omitting the master block from the count), so block 11 - the block of the
last inode, since inode_map_start + inode_count = 12 - stays free and the
first BlockMap::alloc returns 11, not 12 as the claim states; the inode part
of the claim (all flags FREE) does hold. -/
theorem claim_C2_eval :
    fsFresh16.master_block.inode_map + fsFresh16.master_block.inode_count = 12 ∧
    (∀ node ∈ fsFresh16.inode_map.vec, node.flags = INodeFlags.FREE) ∧
    fsFresh16.block_map.vec.getD 11 true = false ∧
    (fsFresh16.block_map.alloc).1 = .ok 11 := by decide

/-- Claim C1: on the mounted 16-block, 128-byte session, after inode 0 is a
FILE inode grown to level 1 by an alloc at offset 8, the alloc at offset 9
(inside the current reach 8 * 16 = 128) returns Some 13, but the lookup at
offset 9 returns None: the level-0 slot write went into the discarded local
copy of the cached pointer block. -/
theorem claim_C1_eval :
    (inodeAt fsAfterAlloc8 0).level = 1 ∧
    9 < (inodeAt fsAfterAlloc8 0).block_ptrs.length *
        fsAfterAlloc8.cache.device.block_numbers_per_level (inodeAt fsAfterAlloc8 0).level ∧
    c1AllocResult = .ok (some 13) ∧
    (fsAfterAlloc9.lookup_block_num_from_offset 0 9).1 = .ok none := by decide

set_option maxRecDepth 100000 in
/-- Claim C3 counterexample: on the freshly formatted 16-block, 128-byte
device, close then read succeeds with clean_mount true and identical
BlockMap and INodeMap, but the MasterBlock contents differ: read clears the
SYNCED flag in the returned copy, so it is not equal to the closed file
system's MasterBlock. -/
theorem claim_C3_counterexample :
    fsFresh16.close = .ok c3Device ∧
    FileSystem.read c3Device = .ok c3Mount ∧
    c3Mount.clean_mount = true ∧
    c3Mount.file_system.block_map = fsFresh16.block_map ∧
    c3Mount.file_system.inode_map = fsFresh16.inode_map ∧
    c3Mount.file_system.master_block ≠ fsFresh16.master_block := by decide

/-- Claim C8 counterexample: the input "fx" is not one of the five
one-character inputs, yet parse returns Ok(FILE) instead of a Parse error,
because nom's to_result accepts a Done with leftover input. -/
theorem claim_C8_counterexample :
    INodeFlags.parse ['f', 'x'] = .ok INodeFlags.FILE ∧
    INodeFlags.parse ['f', 'x'] ≠ .err .Parse := by decide

/-- The inode picked by INodeMap::get agrees with inodeAt when the slot
index is in range. -/
theorem inodeAt_eq_get (fs : FileSystem) (i : Nat) (hi : i < fs.inode_map.vec.length) :
    fs.inode_map.vec.get ⟨i, hi⟩ = inodeAt fs i := by
  simp [inodeAt, List.getD_eq_getElem?_getD, List.getElem?_eq_getElem hi]

/-- Claim C6: for an inode at level 0, lookup_block_num_from_offset returns
the Overflow error exactly when the offset is at or past the eight direct
pointers; in range it returns None on a zero slot and Some of the stored
block number otherwise. -/
theorem claim_C6_level0 (fs : FileSystem) (i o : Nat)
    (hi : i < fs.inode_map.vec.length)
    (hlevel : (inodeAt fs i).level = 0)
    (hlen : (inodeAt fs i).block_ptrs.length = 8) :
    ((fs.lookup_block_num_from_offset i o).1 = .err .Overflow ↔ 8 ≤ o) ∧
    (o < 8 → (inodeAt fs i).block_ptrs.getD o 0 = 0 →
      (fs.lookup_block_num_from_offset i o).1 = .ok none) ∧
    (o < 8 → (inodeAt fs i).block_ptrs.getD o 0 ≠ 0 →
      (fs.lookup_block_num_from_offset i o).1 = .ok
        (some ((inodeAt fs i).block_ptrs.getD o 0))) := by
  unfold FileSystem.lookup_block_num_from_offset
  rw [dif_pos hi, inodeAt_eq_get fs i hi]
  simp only [hlevel, hlen, lookupRec, MASTER_BLOCK_NUMBER]
  by_cases ho : o < 8
  · rw [if_pos ho]
    by_cases hz : (inodeAt fs i).block_ptrs.getD o 0 = 0
    · rw [if_pos hz]
      refine ⟨?_, fun _ _ => rfl, fun _ hne => absurd hz hne⟩
      simp
      omega
    · rw [if_neg hz]
      refine ⟨?_, fun _ hzz => absurd hzz hz, fun _ _ => rfl⟩
      simp
      omega
  · rw [if_neg ho]
    refine ⟨?_, fun hlt => absurd hlt ho, fun hlt => absurd hlt ho⟩
    simp
    omega

/-- Witness for claim C6 at the freshly formatted device: offset 9 yields
Overflow, offset 0 (a zero slot) yields None. -/
theorem claim_C6_level0_witness :
    ((fsFresh16.lookup_block_num_from_offset 0 9).1 = .err .Overflow ↔ 8 ≤ 9) ∧
    (fsFresh16.lookup_block_num_from_offset 0 0).1 = .ok none :=
  ⟨(claim_C6_level0 fsFresh16 0 9 (by decide) (by decide) (by decide)).1,
   (claim_C6_level0 fsFresh16 0 0 (by decide) (by decide) (by decide)).2.1
     (by decide) (by decide)⟩

/-- Claim C9: for an inode at level lp + 1 and an offset at or past the
tree's addressable range block_ptrs.len() * block_numbers_per_level(level),
lookup indexes the eight-slot pointer array at offset / fanout without a
bounds check: the call panics (out-of-bounds slice index, or a division by
zero when the fanout is zero) and in particular never returns Overflow. -/
theorem claim_C9_lookup_panics (fs : FileSystem) (i o lp : Nat)
    (hi : i < fs.inode_map.vec.length)
    (hlevel : (inodeAt fs i).level = lp + 1)
    (hlen : (inodeAt fs i).block_ptrs.length = 8)
    (hreach : (inodeAt fs i).block_ptrs.length *
        fs.cache.device.block_numbers_per_level (inodeAt fs i).level ≤ o) :
    (fs.lookup_block_num_from_offset i o).1 = .panicked ∧
    (fs.lookup_block_num_from_offset i o).1 ≠ .err .Overflow := by
  rw [hlevel, hlen] at hreach
  unfold FileSystem.lookup_block_num_from_offset
  rw [dif_pos hi, inodeAt_eq_get fs i hi]
  simp only [hlevel, lookupRec]
  by_cases hb : fs.cache.device.block_numbers_per_level (lp + 1) = 0
  · rw [if_pos hb]
    exact ⟨rfl, by simp⟩
  · rw [if_neg hb]
    have hdiv : 8 ≤ o / fs.cache.device.block_numbers_per_level (lp + 1) :=
      (Nat.le_div_iff_mul_le (Nat.pos_of_ne_zero hb)).mpr hreach
    have hnb : ¬ (o / fs.cache.device.block_numbers_per_level (lp + 1) <
        (inodeAt fs i).block_ptrs.length) := by
      rw [hlen]
      omega
    rw [dif_neg hnb]
    exact ⟨rfl, by simp⟩

/-- Witness for claim C9: the level-1 inode of the concrete session, at
offset 128 = 8 * 16, panics. -/
theorem claim_C9_lookup_panics_witness :
    (fsAfterAlloc8.lookup_block_num_from_offset 0 128).1 = .panicked ∧
    (fsAfterAlloc8.lookup_block_num_from_offset 0 128).1 ≠ .err .Overflow :=
  claim_C9_lookup_panics fsAfterAlloc8 0 128 0 (by decide) (by decide) (by decide)
    (by decide)

/-- Looking up the key just inserted into the association list returns the
inserted entry. -/
theorem findEntry_insertEntry_self (entries : List (Nat × CacheEntry)) (b : Nat)
    (v : CacheEntry) : findEntry (insertEntry entries b v) b = some v := by
  induction entries with
  | nil => simp [insertEntry, findEntry]
  | cons e rest ih =>
    by_cases hb : e.1 = b
    · simp [insertEntry, hb, findEntry]
    · simp only [insertEntry, if_neg hb]
      have hpred : ¬((fun e : Nat × CacheEntry => e.1 == b) e = true) := by
        simpa using hb
      unfold findEntry at ih ⊢
      have hstep : List.find? (fun e : Nat × CacheEntry => e.1 == b)
          (e :: insertEntry rest b v) =
          List.find? (fun e : Nat × CacheEntry => e.1 == b) (insertEntry rest b v) :=
        List.find?_cons_of_neg _ hpred
      rw [hstep]
      exact ih

/-- A successful Cache::read_pointers leaves the block cached as Pointers. -/
theorem read_pointers_ok_entry (c : Cache) (b : Nat) (p : List Nat) (c2 : Cache)
    (h : c.read_pointers b = (.ok p, c2)) :
    findEntry c2.entries b = some (.Pointers p) := by
  unfold Cache.read_pointers at h
  cases hfind : findEntry c.entries b with
  | some entry =>
    cases entry with
    | Block bl => simp [hfind] at h
    | Pointers ps =>
      simp only [hfind] at h
      simp at h
      obtain ⟨h1, h2⟩ := h
      subst h1
      subst h2
      exact hfind
  | none =>
    cases hdev : c.device.readBlock b c.device.config.block_size with
    | ok block =>
      by_cases hmod : block.length % 8 = 0
      · simp only [hfind, hdev, if_pos hmod] at h
        simp at h
        obtain ⟨h1, h2⟩ := h
        subst h1
        subst h2
        exact findEntry_insertEntry_self c.entries b _
      · simp [hfind, hdev, hmod] at h
    | err e => simp [hfind, hdev] at h
    | panicked => simp [hfind, hdev] at h

/-- A successful Cache::read leaves the block cached as Block. -/
theorem read_ok_entry (c : Cache) (b : Nat) (bl : List Nat) (c2 : Cache)
    (h : c.read b = (.ok bl, c2)) :
    findEntry c2.entries b = some (.Block bl) := by
  unfold Cache.read at h
  cases hfind : findEntry c.entries b with
  | some entry =>
    cases entry with
    | Pointers ps => simp [hfind] at h
    | Block bl2 =>
      simp only [hfind] at h
      simp at h
      obtain ⟨h1, h2⟩ := h
      subst h1
      subst h2
      exact hfind
  | none =>
    cases hdev : c.device.readBlock b c.device.config.block_size with
    | ok block =>
      simp only [hfind, hdev] at h
      simp at h
      obtain ⟨h1, h2⟩ := h
      subst h1
      subst h2
      exact findEntry_insertEntry_self c.entries b _
    | err e => simp [hfind, hdev] at h
    | panicked => simp [hfind, hdev] at h

/-- Claim C7: a block cached as Pointers makes a raw read fail with
CacheInvalid; a block cached as Block makes a pointer read fail with
CacheInvalid; an uncached block is read through the device and cached under
the requested kind. -/
theorem claim_C7_cache_kinds (c : Cache) (b : Nat) :
    (∀ p c2, c.read_pointers b = (.ok p, c2) → c2.read b = (.err .CacheInvalid, c2)) ∧
    (∀ bl c2, c.read b = (.ok bl, c2) → c2.read_pointers b = (.err .CacheInvalid, c2)) ∧
    (findEntry c.entries b = none →
      ∀ bytes, c.device.readBlock b c.device.config.block_size = .ok bytes →
        c.read b = (.ok bytes,
          { c with entries := insertEntry c.entries b (.Block bytes) }) ∧
        (bytes.length % 8 = 0 →
          c.read_pointers b = (.ok (bytesToBlockNumbers bytes),
            { c with entries := (insertEntry c.entries b
                (.Pointers (bytesToBlockNumbers bytes))) }))) := by
  refine ⟨?_, ?_, ?_⟩
  · intro p c2 h
    have hent := read_pointers_ok_entry c b p c2 h
    unfold Cache.read
    simp [hent]
  · intro bl c2 h
    have hent := read_ok_entry c b bl c2 h
    unfold Cache.read_pointers
    simp [hent]
  · intro hfind bytes hdev
    constructor
    · unfold Cache.read
      simp [hfind, hdev]
    · intro hmod
      unfold Cache.read_pointers
      simp [hfind, hdev, hmod]

/-- Witness for claim C7 on a fresh two-block device of block size 8: a
pointer read of block 1 caches it as Pointers, after which a raw read is
CacheInvalid, and symmetrically; an uncached read caches the zero block. -/
theorem claim_C7_cache_kinds_witness :
    c7afterPtrs.read 1 = (.err .CacheInvalid, c7afterPtrs) ∧
    c7afterBlock.read_pointers 1 = (.err .CacheInvalid, c7afterBlock) ∧
    c7cache.read 1 = (.ok (List.replicate 8 0),
      { c7cache with entries := (insertEntry c7cache.entries 1
          (.Block (List.replicate 8 0))) }) :=
  ⟨(claim_C7_cache_kinds c7cache 1).1 [0] c7afterPtrs (by decide),
   (claim_C7_cache_kinds c7cache 1).2.1 (List.replicate 8 0) c7afterBlock (by decide),
   (((claim_C7_cache_kinds c7cache 1).2.2 (by decide) (List.replicate 8 0)) (by decide)).1⟩

/-- Reading the slot just set returns the new value. -/
theorem getD_set_same {α : Type} (v : List α) (i : Nat) (b d : α)
    (hi : i < v.length) : (v.set i b).getD i d = b := by
  simp [List.getD_eq_getElem?_getD, List.getElem?_set_self hi]

/-- Setting one slot leaves every other slot unchanged. -/
theorem getD_set_other {α : Type} (v : List α) (i j : Nat) (b d : α)
    (hij : i ≠ j) : (v.set i b).getD j d = v.getD j d := by
  simp [List.getD_eq_getElem?_getD, List.getElem?_set_ne hij]

/-- BlockMap::find_free finds an in-range free bit that is the lowest one. -/
theorem find_free_spec (v : List Bool) (i : Nat) (h : BlockMap.find_free v = some i) :
    i < v.length ∧ v.getD i true = false ∧ ∀ j < i, v.getD j true = true := by
  induction v generalizing i with
  | nil => simp [BlockMap.find_free] at h
  | cons a rest ih =>
    rw [BlockMap.find_free, List.findIdx?_cons] at h
    by_cases ha : a = false
    · subst ha
      simp at h
      subst h
      refine ⟨by simp, by simp, ?_⟩
      intro j hj
      omega
    · have ha2 : a = true := by
        cases a
        · exact absurd rfl ha
        · rfl
      subst ha2
      simp at h
      obtain ⟨i0, hi0, rfl⟩ := h
      have hfr : BlockMap.find_free rest = some i0 := by
        rw [BlockMap.find_free]
        simpa using hi0
      obtain ⟨h1, h2, h3⟩ := ih i0 hfr
      refine ⟨by simpa using h1, by simpa using h2, ?_⟩
      intro j hj
      cases j with
      | zero => simp
      | succ j2 =>
        rw [List.getD_cons_succ]
        exact h3 j2 (by omega)

/-- When find_free comes back empty the bit vector has no free bit. -/
theorem find_free_none (v : List Bool) (h : BlockMap.find_free v = none) :
    v.count false = 0 := by
  rw [BlockMap.find_free] at h
  simp at h
  simpa [List.count_eq_zero] using h

/-- A map with a free bit has a lowest free bit. -/
theorem find_free_of_count_pos (v : List Bool) (h : 0 < v.count false) :
    ∃ i, BlockMap.find_free v = some i := by
  cases hf : BlockMap.find_free v with
  | some i => exact ⟨i, rfl⟩
  | none =>
    rw [find_free_none v hf] at h
    omega

/-- A free in-range bit makes the false-count positive. -/
theorem count_false_pos (v : List Bool) (b : Nat) (hb : b < v.length)
    (hfree : v.getD b true = false) : 0 < v.count false := by
  rw [List.count_pos_iff]
  rw [List.getD_eq_getElem?_getD, List.getElem?_eq_getElem hb] at hfree
  simp at hfree
  rw [← hfree]
  exact List.getElem_mem hb

/-- Setting a free bit to true removes exactly one free bit. -/
theorem count_set_true (v : List Bool) (i : Nat) (hi : i < v.length)
    (hfree : v.getD i true = false) :
    (v.set i true).count false + 1 = v.count false := by
  induction v generalizing i with
  | nil => simp at hi
  | cons a rest ih =>
    cases i with
    | zero =>
      simp at hfree
      subst hfree
      simp [List.count_cons]
    | succ i2 =>
      rw [List.getD_cons_succ] at hfree
      have := ih i2 (by simpa using hi) hfree
      simp [List.count_cons]
      omega

/-- The first free bit, unfolded form of a successful BlockMap::alloc. -/
theorem alloc_of_find_some (m : BlockMap) (i : Nat)
    (h : BlockMap.find_free m.vec = some i) :
    m.alloc = (.ok i, m.set i true) := by
  unfold BlockMap.alloc
  rw [h]

/-- The out-of-blocks form of BlockMap::alloc. -/
theorem alloc_of_find_none (m : BlockMap)
    (h : BlockMap.find_free m.vec = none) :
    m.alloc = (.err (.Size outOfBlocksMsg), m) := by
  unfold BlockMap.alloc
  rw [h]

/-- One step of the allocation sequence. -/
theorem allocs_succ (n : Nat) (m : BlockMap) :
    BlockMap.allocs (n + 1) m =
      ((m.alloc).1 :: (BlockMap.allocs n (m.alloc).2).1,
       (BlockMap.allocs n (m.alloc).2).2) := rfl

/-- An allocation-only session never returns a block whose bit is already
set. -/
theorem allocs_not_mem_of_true (n : Nat) (m : BlockMap) (b : Nat)
    (hb : m.vec.getD b true = true) :
    .ok b ∉ (BlockMap.allocs n m).1 := by
  induction n generalizing m with
  | zero => simp [BlockMap.allocs]
  | succ n ih =>
    rw [allocs_succ]
    cases hf : BlockMap.find_free m.vec with
    | some i =>
      rw [alloc_of_find_some m i hf]
      obtain ⟨hlen, hfree, _⟩ := find_free_spec m.vec i hf
      have hib : i ≠ b := by
        intro hcontra
        subst hcontra
        rw [hb] at hfree
        exact Bool.noConfusion hfree
      have hb2 : (m.set i true).vec.getD b true = true := by
        show (m.vec.set i true).getD b true = true
        rw [getD_set_other m.vec i b true true hib]
        exact hb
      simp only [List.mem_cons]
      rintro (hhead | htail)
      · injection hhead with h2
        exact hib h2.symm
      · exact ih (m.set i true) hb2 htail
    | none =>
      rw [alloc_of_find_none m hf]
      simp only [List.mem_cons]
      rintro (hhead | htail)
      · exact Res.noConfusion hhead
      · exact ih m hb htail

/-- Any free in-range bit is eventually returned by a run of count-many
allocations. -/
theorem mem_allocs_of_free (n : Nat) (m : BlockMap) (b : Nat)
    (hcount : m.vec.count false = n) (hb : b < m.vec.length)
    (hfree : m.vec.getD b true = false) :
    .ok b ∈ (BlockMap.allocs n m).1 := by
  induction n generalizing m with
  | zero =>
    have := count_false_pos m.vec b hb hfree
    omega
  | succ n ih =>
    obtain ⟨i, hf⟩ := find_free_of_count_pos m.vec (by omega)
    rw [allocs_succ, alloc_of_find_some m i hf]
    obtain ⟨hlen, hifree, _⟩ := find_free_spec m.vec i hf
    by_cases hib : i = b
    · subst hib
      exact List.mem_cons_self _ _
    · have hcount2 : (m.set i true).vec.count false = n := by
        have := count_set_true m.vec i hlen hifree
        show (m.vec.set i true).count false = n
        omega
      have hb2 : b < (m.set i true).vec.length := by
        show b < (m.vec.set i true).length
        simpa using hb
      have hfree2 : (m.set i true).vec.getD b true = false := by
        show (m.vec.set i true).getD b true = false
        rw [getD_set_other m.vec i b true true hib]
        exact hfree
      exact List.mem_cons_of_mem _ (ih (m.set i true) hcount2 hb2 hfree2)

/-- The sequence of k+1 results of an allocation-only session on a map with
k free bits: the first k results are successes, the last is the Size error
out of blocks, and the successes are pairwise distinct. -/
theorem allocs_run_spec (k : Nat) (m : BlockMap) (hk : m.vec.count false = k) :
    (∀ j, j < k → ∃ b, ((BlockMap.allocs (k + 1) m).1.getD j .panicked) = .ok b) ∧
    ((BlockMap.allocs (k + 1) m).1.getD k .panicked = .err (.Size outOfBlocksMsg)) ∧
    ((BlockMap.allocs (k + 1) m).1.filterMap okValue).Nodup := by
  induction k generalizing m with
  | zero =>
    have hf : BlockMap.find_free m.vec = none := by
      cases hf : BlockMap.find_free m.vec with
      | some i =>
        obtain ⟨hlen, hfree, _⟩ := find_free_spec m.vec i hf
        have := count_false_pos m.vec i hlen hfree
        omega
      | none => rfl
    rw [allocs_succ, alloc_of_find_none m hf]
    refine ⟨fun j hj => absurd hj (by omega), ?_, ?_⟩
    · simp [BlockMap.allocs]
    · simp [BlockMap.allocs, okValue]
  | succ k ih =>
    obtain ⟨i, hf⟩ := find_free_of_count_pos m.vec (by omega)
    obtain ⟨hlen, hifree, _⟩ := find_free_spec m.vec i hf
    have hcount2 : (m.set i true).vec.count false = k := by
      have := count_set_true m.vec i hlen hifree
      show (m.vec.set i true).count false = k
      omega
    obtain ⟨ihA, ihB, ihC⟩ := ih (m.set i true) hcount2
    rw [allocs_succ, alloc_of_find_some m i hf]
    refine ⟨?_, ?_, ?_⟩
    · intro j hj
      cases j with
      | zero => exact ⟨i, rfl⟩
      | succ j2 =>
        rw [List.getD_cons_succ]
        exact ihA j2 (by omega)
    · rw [List.getD_cons_succ]
      exact ihB
    · have hsplit : ((Res.ok i :: (BlockMap.allocs (k + 1) (m.set i true)).1).filterMap okValue) =
          i :: ((BlockMap.allocs (k + 1) (m.set i true)).1.filterMap okValue) := by
        simp [okValue]
      rw [hsplit]
      refine List.Nodup.cons ?_ ihC
      intro hmem
      obtain ⟨r, hr, hok⟩ := List.mem_filterMap.mp hmem
      have hr2 : r = .ok i := by
        cases r with
        | ok b =>
          simp [okValue] at hok
          rw [hok]
        | err e => simp [okValue] at hok
        | panicked => simp [okValue] at hok
      subst hr2
      have hbit : (m.set i true).vec.getD i true = true := by
        show (m.vec.set i true).getD i true = true
        exact getD_set_same m.vec i true true hlen
      exact allocs_not_mem_of_true (k + 1) (m.set i true) i hbit hr

/-- Claim C5: BlockMap::alloc returns the lowest-indexed free bit and sets
it; on a map with k free bits an allocation-only session has k successes,
pairwise distinct, and the (k+1)-th call returns the Size error "out of
blocks". -/
theorem claim_C5_alloc_sequence (m : BlockMap) (k : Nat)
    (hk : m.vec.count false = k) :
    (∀ i, (m.alloc).1 = .ok i →
      (m.vec.getD i true = false ∧ ∀ j, j < i → m.vec.getD j true = true) ∧
      (m.alloc).2.vec = m.vec.set i true) ∧
    (∀ j, j < k → ∃ b, ((BlockMap.allocs (k + 1) m).1.getD j .panicked) = .ok b) ∧
    ((BlockMap.allocs (k + 1) m).1.getD k .panicked = .err (.Size outOfBlocksMsg)) ∧
    ((BlockMap.allocs (k + 1) m).1.filterMap okValue).Nodup := by
  refine ⟨?_, allocs_run_spec k m hk⟩
  intro i hok
  cases hf : BlockMap.find_free m.vec with
  | some i2 =>
    rw [alloc_of_find_some m i2 hf] at hok
    have h2 : i2 = i := by injection hok
    rw [← h2, alloc_of_find_some m i2 hf]
    obtain ⟨hlen, hfree, hmin⟩ := find_free_spec m.vec i2 hf
    exact ⟨⟨hfree, hmin⟩, rfl⟩
  | none =>
    rw [alloc_of_find_none m hf] at hok
    exact absurd hok (by simp)

/-- Witness for claim C5 on the three-bit map 100: two successes, then the
out-of-blocks error, all successes distinct. -/
theorem claim_C5_alloc_sequence_witness :
    ((BlockMap.allocs 3 { vec := [true, false, false] }).1.getD 2 .panicked =
      .err (.Size outOfBlocksMsg)) ∧
    ((BlockMap.allocs 3 { vec := [true, false, false] }).1.filterMap okValue).Nodup :=
  ⟨(claim_C5_alloc_sequence { vec := [true, false, false] } 2 (by decide)).2.2.1,
   (claim_C5_alloc_sequence { vec := [true, false, false] } 2 (by decide)).2.2.2⟩

/-- Claim C10: BlockMap::free validates nothing; freeing any in-range block
b (including block 0 and the reserved metadata blocks) clears bit b, a long
enough allocation-only run then returns b, and on an otherwise full map the
very next alloc returns b. -/
theorem claim_C10_free_unchecked (m : BlockMap) (b : Nat) (hb : b < m.vec.length) :
    (m.free b).vec = m.vec.set b false ∧
    (m.free b).vec.getD b true = false ∧
    .ok b ∈ (BlockMap.allocs ((m.free b).vec.count false) (m.free b)).1 ∧
    ((∀ j, j < m.vec.length → m.vec.getD j true = true) →
      ((m.free b).alloc).1 = .ok b) := by
  have hvec : (m.free b).vec = m.vec.set b false := rfl
  have hfree : (m.free b).vec.getD b true = false := by
    rw [hvec]
    exact getD_set_same m.vec b false true hb
  have hblen : b < (m.free b).vec.length := by
    rw [hvec]
    simpa using hb
  refine ⟨hvec, hfree, ?_, ?_⟩
  · exact mem_allocs_of_free _ (m.free b) b rfl hblen hfree
  · intro hall
    have hmin : ∀ j, j < b → (m.free b).vec.getD j true = true := by
      intro j hj
      rw [hvec, getD_set_other m.vec b j false true (by omega)]
      exact hall j (by omega)
    have hfind : BlockMap.find_free (m.free b).vec = some b := by
      cases hf : BlockMap.find_free (m.free b).vec with
      | some i =>
        obtain ⟨hlen2, hifree, himin⟩ := find_free_spec (m.free b).vec i hf
        by_cases hib : i = b
        · rw [hib]
        · exfalso
          by_cases hord : i < b
          · rw [hmin i hord] at hifree
            exact Bool.noConfusion hifree
          · have := himin b (by omega)
            rw [hfree] at this
            exact Bool.noConfusion this
      | none =>
        exfalso
        have := find_free_none (m.free b).vec hf
        have := count_false_pos (m.free b).vec b hblen hfree
        omega
    rw [alloc_of_find_some (m.free b) b hfind]

/-- Witness for claim C10: freeing bit 0 of the full three-bit map makes the
next alloc return the reserved block 0. -/
theorem claim_C10_free_unchecked_witness :
    ((BlockMap.free { vec := [true, true, true] } 0).vec = [true, true, true].set 0 false) ∧
    (.ok 0 ∈ (BlockMap.allocs
      ((BlockMap.free { vec := [true, true, true] } 0).vec.count false)
      (BlockMap.free { vec := [true, true, true] } 0)).1) ∧
    ((BlockMap.free { vec := [true, true, true] } 0).alloc).1 = .ok 0 :=
  ⟨(claim_C10_free_unchecked { vec := [true, true, true] } 0 (by decide)).1,
   (claim_C10_free_unchecked { vec := [true, true, true] } 0 (by decide)).2.2.1,
   (claim_C10_free_unchecked { vec := [true, true, true] } 0 (by decide)).2.2.2
     (by decide)⟩

/-- The little-endian encoding occupies exactly its width. -/
theorem encLE_length (w n : Nat) : (encLE w n).length = w := by
  induction w generalizing n with
  | zero => rfl
  | succ w ih => simp [encLE, ih]

/-- A serialized MasterBlock is 29 bytes. -/
theorem serializeMasterBlock_length (mb : MasterBlock) :
    (serializeMasterBlock mb).length = 29 := by
  simp [serializeMasterBlock, encLE_length]

/-- Decoding reads back the encoded value modulo the width. -/
theorem decLE_encLE (w n : Nat) (rest : List Nat) :
    decLE w (encLE w n ++ rest) = some (n % 256 ^ w) := by
  induction w generalizing n with
  | zero => simp [encLE, decLE, Nat.mod_one]
  | succ w ih =>
    rw [encLE, List.cons_append, decLE, ih]
    simp only [Option.map_some']
    congr 1
    have h256 : 256 ^ (w + 1) = 256 * 256 ^ w := by ring
    rw [h256, Nat.mod_mul]
    generalize n / 256 % 256 ^ w = t
    omega

/-- A decoded fixed-width integer is below 256 to the width. -/
theorem decLE_lt (w : Nat) (l : List Nat) (n : Nat) (h : decLE w l = some n) :
    n < 256 ^ w := by
  induction w generalizing l n with
  | zero =>
    simp [decLE] at h
    omega
  | succ w ih =>
    cases l with
    | nil => simp [decLE] at h
    | cons b rest =>
      rw [decLE] at h
      cases hd : decLE w rest with
      | none => rw [hd] at h; simp at h
      | some hi =>
        rw [hd] at h
        simp at h
        have hhi := ih rest hi hd
        have hb : b % 256 < 256 := Nat.mod_lt b (by omega)
        have h256 : 256 ^ (w + 1) = 256 * 256 ^ w := by ring
        omega

/-- Dropping the width of an encoding exposes the rest of the input. -/
theorem drop_encLE (w n : Nat) (rest : List Nat) :
    (encLE w n ++ rest).drop w = rest :=
  List.drop_left' (encLE_length w n)

/-- The sequential reader steps over an encoding. -/
theorem readLE_step (w n : Nat) (rest : List Nat) :
    readLE w (encLE w n ++ rest) = some (n % 256 ^ w, rest) := by
  rw [readLE, decLE_encLE, drop_encLE]

/-- The sequential reader steps over an encoding of an in-range value. -/
theorem readLE_step_of_lt (w n : Nat) (rest : List Nat) (h : n < 256 ^ w) :
    readLE w (encLE w n ++ rest) = some (n, rest) := by
  rw [readLE_step, Nat.mod_eq_of_lt h]

/-- A successful read is below 256 to the width and leaves the dropped
input. -/
theorem readLE_ok (w : Nat) (l : List Nat) (v : Nat) (r : List Nat)
    (h : readLE w l = some (v, r)) : v < 256 ^ w ∧ r = l.drop w := by
  rw [readLE] at h
  cases hd : decLE w l with
  | none => rw [hd] at h; simp at h
  | some n =>
    rw [hd] at h
    simp only [Option.some.injEq, Prod.mk.injEq] at h
    refine ⟨?_, h.2.symm⟩
    rw [← h.1]
    exact decLE_lt w l n hd

/-- Round trip of the MasterBlock image: decoding reads each field back
modulo its width. -/
theorem deserialize_serialize_mb_general (mb : MasterBlock) (rest : List Nat) :
    deserializeMasterBlock (serializeMasterBlock mb ++ rest) =
      some { block_size := mb.block_size % 256 ^ 2,
             block_count := mb.block_count % 256 ^ 8,
             inode_count := mb.inode_count % 256 ^ 2,
             block_map := mb.block_map % 256 ^ 8,
             inode_map := mb.inode_map % 256 ^ 8,
             flags := mb.flags % 256 ^ 1 } := by
  have hassoc : serializeMasterBlock mb ++ rest =
      encLE 2 mb.block_size ++ (encLE 8 mb.block_count ++ (encLE 2 mb.inode_count ++
        (encLE 8 mb.block_map ++ (encLE 8 mb.inode_map ++ (encLE 1 mb.flags ++ rest))))) := by
    simp [serializeMasterBlock, List.append_assoc]
  rw [deserializeMasterBlock, hassoc]
  simp only [readLE_step]

/-- Round trip of the MasterBlock image for in-range field values. -/
theorem deserialize_serialize_mb (mb : MasterBlock) (rest : List Nat)
    (h1 : mb.block_size < 256 ^ 2) (h2 : mb.block_count < 256 ^ 8)
    (h3 : mb.inode_count < 256 ^ 2) (h4 : mb.block_map < 256 ^ 8)
    (h5 : mb.inode_map < 256 ^ 8) (h6 : mb.flags < 256 ^ 1) :
    deserializeMasterBlock (serializeMasterBlock mb ++ rest) = some mb := by
  rw [deserialize_serialize_mb_general]
  congr 1
  cases mb
  simp only [MasterBlock.mk.injEq]
  refine ⟨?_, ?_, ?_, ?_, ?_, ?_⟩ <;> exact Nat.mod_eq_of_lt (by assumption)

/-- The fields of any decoded MasterBlock are within their widths. -/
theorem deserializeMasterBlock_bounds (l : List Nat) (mb : MasterBlock)
    (h : deserializeMasterBlock l = some mb) :
    mb.block_size < 256 ^ 2 ∧ mb.block_count < 256 ^ 8 ∧ mb.inode_count < 256 ^ 2 ∧
    mb.block_map < 256 ^ 8 ∧ mb.inode_map < 256 ^ 8 ∧ mb.flags < 256 ^ 1 := by
  unfold deserializeMasterBlock at h
  split at h
  case _ bs l1 heq1 =>
    split at h
    case _ bc l2 heq2 =>
      split at h
      case _ ic l3 heq3 =>
        split at h
        case _ bm l4 heq4 =>
          split at h
          case _ im l5 heq5 =>
            split at h
            case _ fl l6 heq6 =>
              injection h with h2
              subst h2
              exact ⟨(readLE_ok _ _ _ _ heq1).1, (readLE_ok _ _ _ _ heq2).1,
                     (readLE_ok _ _ _ _ heq3).1, (readLE_ok _ _ _ _ heq4).1,
                     (readLE_ok _ _ _ _ heq5).1, (readLE_ok _ _ _ _ heq6).1⟩
            case _ => exact absurd h (by simp)
          case _ => exact absurd h (by simp)
        case _ => exact absurd h (by simp)
      case _ => exact absurd h (by simp)
    case _ => exact absurd h (by simp)
  case _ => exact absurd h (by simp)

/-- The SYNCED test of a flag word is its bit 7. -/
theorem flagsContains_synced (f : Nat) :
    flagsContains f MasterBlockFlags.SYNCED = f.testBit 7 := by
  unfold flagsContains MasterBlockFlags.SYNCED
  have h128 : (128 : Nat) = 2 ^ 7 := by norm_num
  rw [h128, Nat.and_two_pow]
  cases hb : f.testBit 7 <;> simp [hb]

/-- Clearing SYNCED clears bit 7. -/
theorem setFlag_false_testBit (f : Nat) :
    (setFlag f MasterBlockFlags.SYNCED false).testBit 7 = false := by
  unfold setFlag MasterBlockFlags.SYNCED
  simp [Nat.testBit_and]
  intro _
  decide

/-- Setting SYNCED sets bit 7, and the u8 truncation of the stored byte
keeps it. -/
theorem setFlag_true_testBit (f : Nat) :
    ((setFlag f MasterBlockFlags.SYNCED true) % 256 ^ 1).testBit 7 = true := by
  unfold setFlag MasterBlockFlags.SYNCED
  have h256 : (256 : Nat) ^ 1 = 2 ^ 8 := by norm_num
  rw [h256, Nat.testBit_mod_two_pow]
  simp [Nat.testBit_or]
  right
  decide

/-- Inversion of a successful BlockDevice::write. -/
theorem writeBlock_ok (d : BlockDevice) (b : Nat) (buf : List Nat)
    (d2 : BlockDevice) (h : d.writeBlock b buf = .ok d2) :
    b < d.config.block_count ∧ buf.length = d.config.block_size ∧
    d2.config = d.config ∧
    d2.data = (d.data ++ List.replicate (b + 1 - d.data.length)
      (List.replicate d.config.block_size 0)).set b buf ∧
    b < d2.data.length := by
  unfold BlockDevice.writeBlock at h
  split at h
  · exact absurd h (by simp)
  · split at h
    · exact absurd h (by simp)
    · rename_i hcount hlen
      injection h with h2
      subst h2
      refine ⟨by omega, by omega, rfl, rfl, ?_⟩
      simp only [List.length_set, List.length_append, List.length_replicate]
      omega

/-- Block b of the device returned by a successful write holds the written
buffer, whatever getD default is supplied. -/
theorem writeBlock_ok_getD (d : BlockDevice) (b : Nat) (buf : List Nat)
    (d2 : BlockDevice) (h : d.writeBlock b buf = .ok d2) (dflt : List Nat) :
    d2.data.getD b dflt = buf := by
  obtain ⟨hb, hlen, hcfg, hdata, hblen⟩ := writeBlock_ok d b buf d2 h
  rw [hdata]
  rw [hdata] at hblen
  exact getD_set_same _ b buf dflt (by simpa using hblen)

/-- Inversion of a successful bincode serialize_into. -/
theorem serializeInto_ok (len : Nat) (payload buf : List Nat)
    (h : serializeInto len payload = .ok buf) :
    payload.length ≤ len ∧ buf = payload ++ List.replicate (len - payload.length) 0 := by
  unfold serializeInto at h
  split at h
  · injection h with h2
    subst h2
    exact ⟨by omega, rfl⟩
  · exact absurd h (by simp)

/-- Inversion of a successful MasterBlock::write_sync_status. -/
theorem write_sync_status_ok (mb : MasterBlock) (d : BlockDevice) (status : Bool)
    (r : MasterBlock × BlockDevice) (h : mb.write_sync_status d status = .ok r) :
    r.1 = { mb with flags := setFlag mb.flags MasterBlockFlags.SYNCED status } ∧
    r.2.config = d.config ∧
    0 < r.2.data.length ∧
    (∀ dflt, r.2.data.getD 0 dflt =
      serializeMasterBlock r.1 ++ List.replicate (mb.block_size - 29) 0) := by
  unfold MasterBlock.write_sync_status at h
  unfold MasterBlock.write at h
  split at h
  case _ d2 hw =>
    injection h with h2
    subst h2
    split at hw
    case _ buf hser =>
      obtain ⟨hfit, hbuf⟩ := serializeInto_ok _ _ _ hser
      rw [serializeMasterBlock_length] at hfit hbuf
      refine ⟨rfl, (writeBlock_ok _ _ _ _ hw).2.2.1, ?_, ?_⟩
      · show 0 < d2.data.length
        have hblen := (writeBlock_ok _ _ _ _ hw).2.2.2.2
        have hm0 : MASTER_BLOCK_NUMBER = 0 := rfl
        omega
      intro dflt
      have hg := writeBlock_ok_getD _ _ _ _ hw dflt
      rw [hbuf] at hg
      exact hg
    case _ => exact absurd hw (by simp)
    case _ => exact absurd hw (by simp)
  case _ => exact absurd h (by simp)
  case _ => exact absurd h (by simp)

/-- Inversion of a successful BlockDevice::read. -/
theorem readBlock_ok (d : BlockDevice) (b len : Nat) (bytes : List Nat)
    (h : d.readBlock b len = .ok bytes) :
    b < d.config.block_count ∧ len = d.config.block_size ∧
    bytes = d.data.getD b (List.replicate d.config.block_size 0) := by
  unfold BlockDevice.readBlock at h
  split at h
  · exact absurd h (by simp)
  · split at h
    · exact absurd h (by simp)
    · rename_i hcount hlen
      injection h with h2
      exact ⟨by omega, by omega, h2.symm⟩

/-- getD at an in-range index ignores the supplied default. -/
theorem getD_default_irrel {α : Type} (l : List α) (i : Nat) (h : i < l.length)
    (d1 d2 : α) : l.getD i d1 = l.getD i d2 := by
  simp [List.getD_eq_getElem?_getD, List.getElem?_eq_getElem h]

/-- Inversion of a successful FileSystem::read: the master block decoded
from block 0, the final sync-status write that produced the returned
in-memory master block and device, and the clean_mount value taken from the
decoded SYNCED flag. -/
theorem read_ok_master (d : BlockDevice) (m : Mount) (h : FileSystem.read d = .ok m) :
    ∃ mb, deserializeMasterBlock (d.data.getD MASTER_BLOCK_NUMBER
        (List.replicate d.config.block_size 0)) = some mb ∧
      mb.write_sync_status d false =
        .ok (m.file_system.master_block, m.file_system.cache.device) ∧
      m.clean_mount = flagsContains mb.flags MasterBlockFlags.SYNCED := by
  unfold FileSystem.read at h
  split at h
  case _ mb_vec hrb =>
    obtain ⟨hb0, hlen0, hbytes⟩ := readBlock_ok _ _ _ _ hrb
    split at h
    case _ mb hdec =>
      split at h
      · exact absurd h (by simp)
      · split at h
        case _ bits hbm =>
          split at h
          · split at h
            case _ nodes hnodes =>
              split at h
              case _ r hw =>
                injection h with h2
                subst h2
                refine ⟨mb, ?_, hw, rfl⟩
                rw [← hbytes]
                exact hdec
              case _ => exact absurd h (by simp)
              case _ => exact absurd h (by simp)
            case _ => exact absurd h (by simp)
            case _ => exact absurd h (by simp)
          · exact absurd h (by simp)
        case _ => exact absurd h (by simp)
        case _ => exact absurd h (by simp)
    case _ => exact absurd h (by simp)
  case _ => exact absurd h (by simp)
  case _ => exact absurd h (by simp)

/-- Claim C4: every successful mount immediately persists SYNCED=false to
block 0 (the returned in-memory master block has it cleared and block 0
decodes back to exactly that master block); a second read of the mounted
device, standing for the next mount after a session that ended without
close, reports clean_mount = false; and a successful close stores a master
block whose SYNCED flag is set again. -/
theorem claim_C4_sync_lifecycle :
    (∀ d m, FileSystem.read d = .ok m →
      deserializeMasterBlock (m.file_system.cache.device.data.getD 0 []) =
        some m.file_system.master_block ∧
      flagsContains m.file_system.master_block.flags MasterBlockFlags.SYNCED = false) ∧
    (∀ d m m2, FileSystem.read d = .ok m →
      FileSystem.read m.file_system.cache.device = .ok m2 →
      m2.clean_mount = false) ∧
    (∀ fs d2, FileSystem.close fs = .ok d2 →
      ∀ mb2, deserializeMasterBlock (d2.data.getD 0 []) = some mb2 →
        flagsContains mb2.flags MasterBlockFlags.SYNCED = true) := by
  have partA : ∀ d m, FileSystem.read d = .ok m →
      deserializeMasterBlock (m.file_system.cache.device.data.getD 0 []) =
        some m.file_system.master_block ∧
      flagsContains m.file_system.master_block.flags MasterBlockFlags.SYNCED = false := by
    intro d m h
    obtain ⟨mb, hdec, hw, hclean⟩ := read_ok_master d m h
    obtain ⟨hmb1, hcfg, hlen, hget⟩ := write_sync_status_ok mb d false _ hw
    have hmb1' : m.file_system.master_block =
        { mb with flags := setFlag mb.flags MasterBlockFlags.SYNCED false } := hmb1
    have hget0 : m.file_system.cache.device.data.getD 0 [] =
        serializeMasterBlock m.file_system.master_block ++
          List.replicate (mb.block_size - 29) 0 := hget []
    obtain ⟨b1, b2, b3, b4, b5, b6⟩ := deserializeMasterBlock_bounds _ _ hdec
    have hfl : setFlag mb.flags MasterBlockFlags.SYNCED false < 256 ^ 1 := by
      show mb.flags &&& (255 ^^^ 128) < 256 ^ 1
      calc mb.flags &&& (255 ^^^ 128) ≤ 255 ^^^ 128 := Nat.and_le_right
        _ < 256 ^ 1 := by decide
    constructor
    · rw [hget0, hmb1']
      exact deserialize_serialize_mb _ _ b1 b2 b3 b4 b5 hfl
    · rw [hmb1']
      show flagsContains (setFlag mb.flags MasterBlockFlags.SYNCED false)
        MasterBlockFlags.SYNCED = false
      rw [flagsContains_synced, setFlag_false_testBit]
  refine ⟨partA, ?_, ?_⟩
  · intro d m m2 h h2
    obtain ⟨hdecA, hflagA⟩ := partA d m h
    obtain ⟨mb, hdec1, hw1, hclean1⟩ := read_ok_master d m h
    obtain ⟨hmb1, hcfg1, hlen1, hget1⟩ := write_sync_status_ok mb d false _ hw1
    obtain ⟨mbX, hdecX, hwX, hcleanX⟩ := read_ok_master _ m2 h2
    have hsame : m.file_system.cache.device.data.getD MASTER_BLOCK_NUMBER
        (List.replicate m.file_system.cache.device.config.block_size 0) =
        m.file_system.cache.device.data.getD 0 [] := by
      have hm0 : MASTER_BLOCK_NUMBER = 0 := rfl
      rw [hm0]
      exact getD_default_irrel _ 0 hlen1 _ _
    rw [hsame, hdecA] at hdecX
    have hmbX : mbX = m.file_system.master_block := by
      injection hdecX with h3
      exact h3.symm
    rw [hcleanX, hmbX, hflagA]
  · intro fs d2 h
    unfold FileSystem.close at h
    split at h
    case _ d1 hwrt =>
      split at h
      case _ r hw =>
        injection h with h2
        subst h2
        obtain ⟨hmb1, hcfg, hlen, hget⟩ :=
          write_sync_status_ok fs.master_block d1 true r hw
        intro mb2 hdec2
        have hget0 := hget []
        rw [hmb1] at hget0
        rw [hget0, deserialize_serialize_mb_general] at hdec2
        injection hdec2 with h3
        rw [← h3]
        show flagsContains
          ((setFlag fs.master_block.flags MasterBlockFlags.SYNCED true) % 256 ^ 1)
          MasterBlockFlags.SYNCED = true
        rw [flagsContains_synced]
        exact setFlag_true_testBit fs.master_block.flags
      case _ => exact absurd h (by simp)
      case _ => exact absurd h (by simp)
    case _ => exact absurd h (by simp)
    case _ => exact absurd h (by simp)

set_option maxRecDepth 1000000 in
/-- Witness for claim C4 on the concrete closed device: the first mount is
dirty on disk and in memory, a second read reports an unclean mount, and
the master block stored by a close has SYNCED set. -/
theorem claim_C4_sync_lifecycle_witness :
    flagsContains c3Mount.file_system.master_block.flags MasterBlockFlags.SYNCED = false ∧
    c4Mount2.clean_mount = false ∧
    flagsContains c4ClosedMb.flags MasterBlockFlags.SYNCED = true :=
  ⟨(claim_C4_sync_lifecycle.1 c3Device c3Mount (by decide)).2,
   claim_C4_sync_lifecycle.2.1 c3Device c3Mount c4Mount2 (by decide) (by decide),
   claim_C4_sync_lifecycle.2.2 c3Mount.file_system c4CloseDevice (by decide)
     c4ClosedMb (by decide)⟩

/-- The fuel of to_bytesF is irrelevant once it covers the bit count. -/
theorem to_bytesF_congr (f1 : Nat) : ∀ (f2 : Nat) (v : List Bool),
    v.length ≤ f1 → v.length ≤ f2 → to_bytesF f1 v = to_bytesF f2 v := by
  induction f1 with
  | zero =>
    intro f2 v h1 h2
    have hv : v = [] := List.eq_nil_of_length_eq_zero (by omega)
    subst hv
    cases f2 <;> simp [to_bytesF]
  | succ f1 ih =>
    intro f2 v h1 h2
    by_cases hv : v = []
    · subst hv
      cases f2 <;> simp [to_bytesF]
    · have hpos : 0 < v.length := List.length_pos.mpr hv
      cases f2 with
      | zero => omega
      | succ f2 =>
        rw [to_bytesF, to_bytesF, if_neg hv, if_neg hv]
        have hdrop : (v.drop 8).length ≤ f1 := by
          simp only [List.length_drop]
          omega
        have hdrop2 : (v.drop 8).length ≤ f2 := by
          simp only [List.length_drop]
          omega
        rw [ih f2 (v.drop 8) hdrop hdrop2]

/-- The defining equation of to_bytes in take-and-drop form. -/
theorem to_bytes_eq (v : List Bool) :
    to_bytes v =
      if v = [] then [] else byteOfBits (padTo8 (v.take 8)) :: to_bytes (v.drop 8) := by
  by_cases hv : v = []
  · subst hv
    simp [to_bytes, to_bytesF]
  · have hpos : 0 < v.length := List.length_pos.mpr hv
    rw [if_neg hv]
    unfold to_bytes
    cases hl : v.length with
    | zero => omega
    | succ n =>
      rw [to_bytesF, if_neg hv]
      congr 1
      apply to_bytesF_congr
      · simp only [List.length_drop]
        omega
      · simp only [List.length_drop]
        omega

/-- One byte per eight bits, rounded up. -/
theorem to_bytes_length (v : List Bool) : (to_bytes v).length = (v.length + 7) / 8 := by
  by_cases hv : v = []
  · subst hv
    simp [to_bytes, to_bytesF]
  · have hpos : 0 < v.length := List.length_pos.mpr hv
    rw [to_bytes_eq, if_neg hv]
    have ih := to_bytes_length (v.drop 8)
    simp only [List.length_cons, ih, List.length_drop]
    omega
termination_by v.length
decreasing_by
  simp only [List.length_drop]
  omega

/-- from_bytes distributes over concatenation. -/
theorem from_bytes_append (a b : List Nat) :
    from_bytes (a ++ b) = from_bytes a ++ from_bytes b := by
  simp [from_bytes]

/-- Unpacking the byte packed from eight bits returns the bits. -/
theorem bitsOfByte_byteOfBits :
    ∀ b0 b1 b2 b3 b4 b5 b6 b7 : Bool,
      bitsOfByte (byteOfBits [b0, b1, b2, b3, b4, b5, b6, b7]) =
        [b0, b1, b2, b3, b4, b5, b6, b7] := by decide

/-- A list of exactly eight bits survives the byte round trip. -/
theorem bitsOfByte_byteOfBits_list (l : List Bool) (h : l.length = 8) :
    bitsOfByte (byteOfBits l) = l := by
  match l, h with
  | [b0, b1, b2, b3, b4, b5, b6, b7], _ =>
    exact bitsOfByte_byteOfBits b0 b1 b2 b3 b4 b5 b6 b7

/-- BitVec::from_bytes inverts BitVec::to_bytes up to the final padding to a
byte boundary. -/
theorem from_bytes_to_bytes (v : List Bool) :
    from_bytes (to_bytes v) = v ++ List.replicate ((8 - v.length % 8) % 8) false := by
  by_cases hv : v = []
  · subst hv
    simp [to_bytes, to_bytesF, from_bytes]
  · have hpos : 0 < v.length := List.length_pos.mpr hv
    rw [to_bytes_eq, if_neg hv]
    have ih := from_bytes_to_bytes (v.drop 8)
    rw [show from_bytes (byteOfBits (padTo8 (v.take 8)) :: to_bytes (v.drop 8)) =
        bitsOfByte (byteOfBits (padTo8 (v.take 8))) ++ from_bytes (to_bytes (v.drop 8))
      from rfl]
    rw [ih]
    by_cases h8 : 8 ≤ v.length
    · have htake : padTo8 (v.take 8) = v.take 8 := by
        unfold padTo8
        have : (v.take 8).length = 8 := by
          simp only [List.length_take]
          omega
        rw [this]
        simp
      rw [htake, bitsOfByte_byteOfBits_list _ (by simp [List.length_take]; omega)]
      rw [← List.append_assoc, List.take_append_drop]
      congr 2
      simp only [List.length_drop]
      omega
    · have hdrop : v.drop 8 = [] := List.drop_eq_nil_of_le (by omega)
      rw [hdrop]
      have hlen : (padTo8 (v.take 8)).length = 8 := by
        unfold padTo8
        simp only [List.length_append, List.length_take, List.length_replicate]
        omega
      rw [bitsOfByte_byteOfBits_list _ hlen]
      unfold padTo8
      have htake : v.take 8 = v := List.take_of_length_le (by omega)
      rw [htake]
      simp [to_bytes, to_bytesF, from_bytes]
      omega
termination_by v.length
decreasing_by
  simp only [List.length_drop]
  omega

/-- The bits of a zero byte. -/
theorem bitsOfByte_zero : bitsOfByte 0 = List.replicate 8 false := by decide

/-- Zero bytes unpack to false bits. -/
theorem from_bytes_replicate_zero (n : Nat) :
    from_bytes (List.replicate n 0) = List.replicate (8 * n) false := by
  induction n with
  | zero => simp [from_bytes]
  | succ n ih =>
    rw [List.replicate_succ, show from_bytes (0 :: List.replicate n 0) =
        bitsOfByte 0 ++ from_bytes (List.replicate n 0) from rfl, ih, bitsOfByte_zero]
    rw [show 8 * (n + 1) = 8 + 8 * n by ring, List.replicate_add]

/-- Concatenating the unpacked blocks equals unpacking the concatenation. -/
theorem flatMap_from_bytes (js : List Nat) (F : Nat → List Nat) :
    js.flatMap (fun j => from_bytes (F j)) = from_bytes (js.flatMap F) := by
  induction js with
  | nil => simp [from_bytes]
  | cons j rest ih =>
    rw [List.flatMap_cons, List.flatMap_cons, from_bytes_append, ih]

/-- A prefix of chunks concatenates to the corresponding prefix. -/
theorem flatMap_chunks (bs : Nat) (bytes : List Nat) : ∀ (q : Nat),
    (List.range q).flatMap (fun j => (bytes.drop (j * bs)).take bs) =
      bytes.take (q * bs) := by
  intro q
  induction q with
  | zero => simp
  | succ q ih =>
    rw [List.range_succ, List.flatMap_append, ih]
    simp only [List.flatMap_cons, List.flatMap_nil, List.append_nil]
    rw [List.take_drop]
    have hmin : bytes.take (q * bs) = (bytes.take (q * bs + bs)).take (q * bs) := by
      rw [List.take_take]
      congr 1
      omega
    rw [hmin, List.take_append_drop]
    congr 1
    ring

/-- The fuel of writeFullChunksF is irrelevant once it covers the byte
count. -/
theorem writeFullChunksF_congr (f1 : Nat) : ∀ (f2 : Nat) (d : BlockDevice)
    (bn cs : Nat) (bytes : List Nat), bytes.length ≤ f1 → bytes.length ≤ f2 →
    writeFullChunksF f1 d bn cs bytes = writeFullChunksF f2 d bn cs bytes := by
  induction f1 with
  | zero =>
    intro f2 d bn cs bytes h1 h2
    have hb : bytes = [] := List.eq_nil_of_length_eq_zero (by omega)
    subst hb
    cases f2 with
    | zero => rfl
    | succ f2 =>
      by_cases hcs : cs = 0
      · rw [writeFullChunksF, writeFullChunksF, if_pos hcs, if_pos hcs]
      · rw [writeFullChunksF, writeFullChunksF, if_neg hcs, if_neg hcs,
            if_pos (show List.length ([] : List Nat) < cs from Nat.pos_of_ne_zero hcs)]
  | succ f1 ih =>
    intro f2 d bn cs bytes h1 h2
    by_cases hcs : cs = 0
    · cases f2 with
      | zero =>
        have hb : bytes = [] := List.eq_nil_of_length_eq_zero (by omega)
        subst hb
        rw [writeFullChunksF, writeFullChunksF, if_pos hcs, if_pos hcs]
      | succ f2 =>
        rw [writeFullChunksF, writeFullChunksF, if_pos hcs, if_pos hcs]
    · by_cases hlt : bytes.length < cs
      · cases f2 with
        | zero =>
          have hb : bytes = [] := List.eq_nil_of_length_eq_zero (by omega)
          subst hb
          rw [writeFullChunksF, writeFullChunksF, if_neg hcs, if_neg hcs,
              if_pos (show List.length ([] : List Nat) < cs from Nat.pos_of_ne_zero hcs)]
        | succ f2 =>
          rw [writeFullChunksF, writeFullChunksF, if_neg hcs, if_neg hcs,
              if_pos hlt, if_pos hlt]
      · cases f2 with
        | zero => omega
        | succ f2 =>
          rw [writeFullChunksF, writeFullChunksF, if_neg hcs, if_neg hcs,
              if_neg hlt, if_neg hlt]
          cases hw : d.writeBlock bn (bytes.take cs) with
          | ok d2 =>
            exact ih f2 d2 (bn + 1) cs (bytes.drop cs)
              (by simp only [List.length_drop]; omega)
              (by simp only [List.length_drop]; omega)
          | err e => rfl
          | panicked => rfl

/-- The defining equation of the full-chunk loop. -/
theorem writeFullChunks_eq (d : BlockDevice) (bn cs : Nat) (bytes : List Nat) :
    writeFullChunks d bn cs bytes =
      if cs = 0 then (if bytes = [] then .ok (d, bn, []) else .panicked)
      else if bytes.length < cs then .ok (d, bn, bytes)
      else match d.writeBlock bn (bytes.take cs) with
        | .ok d2 => writeFullChunks d2 (bn + 1) cs (bytes.drop cs)
        | .err e => .err e
        | .panicked => .panicked := by
  cases bytes with
  | nil =>
    show writeFullChunksF 0 d bn cs [] = _
    rw [writeFullChunksF]
    by_cases hcs : cs = 0
    · rw [if_pos hcs, if_pos hcs]
    · rw [if_neg hcs, if_neg hcs,
          if_pos (show List.length ([] : List Nat) < cs from Nat.pos_of_ne_zero hcs)]
  | cons b bt =>
    show writeFullChunksF (bt.length + 1) d bn cs (b :: bt) = _
    rw [writeFullChunksF]
    by_cases hcs : cs = 0
    · rw [if_pos hcs, if_pos hcs]
    · rw [if_neg hcs, if_neg hcs]
      by_cases hlt : (b :: bt).length < cs
      · rw [if_pos hlt, if_pos hlt]
      · rw [if_neg hlt, if_neg hlt]
        cases hw : d.writeBlock bn ((b :: bt).take cs) with
        | ok d2 =>
          exact writeFullChunksF_congr bt.length _ d2 (bn + 1) cs ((b :: bt).drop cs)
            (by simp only [List.length_drop, List.length_cons]; omega)
            (by simp only [List.length_drop]; omega)
        | err e => rfl
        | panicked => rfl

/-- BlockDevice::write on a full-length device: an in-range block-sized
write just replaces the block. -/
theorem writeBlock_full (d : BlockDevice) (bn : Nat) (buf : List Nat)
    (hfull : d.data.length = d.config.block_count)
    (hbn : bn < d.config.block_count)
    (hbuf : buf.length = d.config.block_size) :
    d.writeBlock bn buf = .ok { config := d.config, data := d.data.set bn buf } := by
  unfold BlockDevice.writeBlock
  rw [if_neg (by omega), if_neg (by omega)]
  have hpad : bn + 1 - d.data.length = 0 := by omega
  rw [hpad]
  simp

/-- Running the full-chunk loop on a full-length device writes the chunks to
consecutive blocks: the loop succeeds, advances the cursor by the number of
full chunks, returns the remaining bytes, and the resulting device holds
chunk k at block bn + k with everything else untouched. -/
theorem writeFullChunks_spec (cs : Nat) (hcs : 0 < cs) : ∀ (c : Nat)
    (bytes : List Nat) (d : BlockDevice) (bn : Nat),
    bytes.length / cs = c →
    cs = d.config.block_size →
    d.data.length = d.config.block_count →
    bn + c ≤ d.config.block_count →
    ∃ d2, writeFullChunks d bn cs bytes = .ok (d2, bn + c, bytes.drop (c * cs)) ∧
      d2.config = d.config ∧
      d2.data.length = d.data.length ∧
      (∀ j dflt, j < bn ∨ bn + c ≤ j → d2.data.getD j dflt = d.data.getD j dflt) ∧
      (∀ k dflt, k < c → d2.data.getD (bn + k) dflt = (bytes.drop (k * cs)).take cs) := by
  intro c
  induction c with
  | zero =>
    intro bytes d bn hc hbs hfull hcount
    have hlt : bytes.length < cs := by
      by_contra hge
      have : 0 < bytes.length / cs := Nat.div_pos (by omega) hcs
      omega
    refine ⟨d, ?_, rfl, rfl, fun j dflt hj => rfl, fun k dflt hk => by omega⟩
    rw [writeFullChunks_eq, if_neg (by omega), if_pos hlt]
    simp
  | succ c ih =>
    intro bytes d bn hc hbs hfull hcount
    have hge : cs ≤ bytes.length := by
      by_contra hlt
      rw [Nat.div_eq_of_lt (by omega)] at hc
      omega
    have htake : (bytes.take cs).length = cs := by
      simp only [List.length_take]
      omega
    have hw := writeBlock_full d bn (bytes.take cs) hfull (by omega) (by omega)
    have hdropdiv : (bytes.drop cs).length / cs = c := by
      have hx : bytes.length - cs + cs = bytes.length := by omega
      have := Nat.add_div_right (bytes.length - cs) hcs
      rw [hx] at this
      simp only [List.length_drop]
      omega
    obtain ⟨d2, hrun, hcfg, hlen, huntouched, hwritten⟩ :=
      ih (bytes.drop cs) { config := d.config, data := d.data.set bn (bytes.take cs) }
        (bn + 1) hdropdiv hbs (by simpa using hfull) (by simp; omega)
    refine ⟨d2, ?_, hcfg, by simpa using hlen, ?_, ?_⟩
    · rw [writeFullChunks_eq, if_neg (by omega), if_neg (by omega), hw]
      show writeFullChunks { config := d.config, data := d.data.set bn (bytes.take cs) }
        (bn + 1) cs (bytes.drop cs) = _
      have he1 : bn + (c + 1) = bn + 1 + c := by omega
      have he2 : List.drop ((c + 1) * cs) bytes = List.drop (c * cs) (List.drop cs bytes) := by
        rw [List.drop_drop]
        congr 1
        ring
      rw [he1, he2, hrun]
    · intro j dflt hj
      have hstep := huntouched j dflt (by omega)
      rw [hstep]
      show (d.data.set bn (bytes.take cs)).getD j dflt = d.data.getD j dflt
      exact getD_set_other _ bn j _ dflt (by omega)
    · intro k dflt hk
      cases k with
      | zero =>
        have hstep := huntouched bn dflt (by omega)
        rw [show bn + 0 = bn by omega, hstep]
        show (d.data.set bn (bytes.take cs)).getD bn dflt = (bytes.drop (0 * cs)).take cs
        rw [getD_set_same _ bn _ dflt (by omega)]
        simp
      | succ k2 =>
        have hstep := hwritten k2 dflt (by omega)
        rw [show bn + (k2 + 1) = bn + 1 + k2 by omega, hstep, List.drop_drop]
        congr 2
        ring

/-- The bincode image of an eight-pointer inode is 100 bytes. -/
theorem serializeINode_length (n : INode) (h : n.block_ptrs.length = 8) :
    (serializeINode n).length = 100 := by
  have hflat : ((n.block_ptrs.map (encLE 8)).flatten).length = 64 := by
    rw [List.length_flatten]
    have hmap : (n.block_ptrs.map (encLE 8)).map List.length =
        n.block_ptrs.map (fun _ => 8) := by
      rw [List.map_map]
      apply List.map_congr_left
      intro a _
      exact encLE_length 8 a
    rw [hmap]
    rw [List.map_const']
    simp [h]
  simp [serializeINode, serializeTime, encLE_length, hflat]

/-- Writing the inode table to consecutive blocks of a full-length device:
success, block bn + k holds the serialized k-th inode, everything else is
untouched. -/
theorem writeINodes_spec : ∀ (nodes : List INode) (d : BlockDevice) (bn bs : Nat),
    bs = d.config.block_size →
    d.data.length = d.config.block_count →
    bn + nodes.length ≤ d.config.block_count →
    (∀ node ∈ nodes, node.block_ptrs.length = 8) →
    100 ≤ bs →
    ∃ d2, writeINodes d bn bs nodes = .ok d2 ∧
      d2.config = d.config ∧
      d2.data.length = d.data.length ∧
      (∀ j dflt, j < bn ∨ bn + nodes.length ≤ j →
        d2.data.getD j dflt = d.data.getD j dflt) ∧
      (∀ k dflt, k < nodes.length →
        d2.data.getD (bn + k) dflt =
          serializeINode (nodes.getD k dummyINode) ++ List.replicate (bs - 100) 0) := by
  intro nodes
  induction nodes with
  | nil =>
    intro d bn bs hbs hfull hcount hptrs hfit
    exact ⟨d, rfl, rfl, rfl, fun j dflt hj => rfl, fun k dflt hk => by simp at hk⟩
  | cons node rest ih =>
    intro d bn bs hbs hfull hcount hptrs hfit
    have hlen : (serializeINode node).length = 100 :=
      serializeINode_length node (hptrs node (by simp))
    have hser : serializeInto bs (serializeINode node) =
        .ok (serializeINode node ++ List.replicate (bs - 100) 0) := by
      unfold serializeInto
      rw [if_pos (by omega), hlen]
    have hbuflen : (serializeINode node ++ List.replicate (bs - 100) 0).length =
        d.config.block_size := by
      simp [hlen]
      omega
    have hw := writeBlock_full d bn (serializeINode node ++ List.replicate (bs - 100) 0)
      hfull (by simp at hcount; omega) hbuflen
    obtain ⟨d2, hrun, hcfg, hlen2, huntouched, hwritten⟩ :=
      ih { config := d.config,
           data := d.data.set bn (serializeINode node ++ List.replicate (bs - 100) 0) }
        (bn + 1) bs hbs (by simpa using hfull)
        (by simp at hcount ⊢; omega)
        (fun n2 hn2 => hptrs n2 (by simp [hn2]))
        hfit
    refine ⟨d2, ?_, hcfg, by simpa using hlen2, ?_, ?_⟩
    · rw [writeINodes, hser]
      show (match d.writeBlock bn (serializeINode node ++ List.replicate (bs - 100) 0) with
            | Res.ok dx => writeINodes dx (bn + 1) bs rest
            | Res.err e => Res.err e
            | Res.panicked => Res.panicked) = Res.ok d2
      rw [hw]
      exact hrun
    · intro j dflt hj
      simp only [List.length_cons] at hj
      have hstep := huntouched j dflt (by omega)
      rw [hstep]
      show (d.data.set bn _).getD j dflt = d.data.getD j dflt
      exact getD_set_other _ bn j _ dflt (by omega)
    · intro k dflt hk
      cases k with
      | zero =>
        have hstep := huntouched bn dflt (by omega)
        rw [show bn + 0 = bn by omega, hstep]
        show (d.data.set bn _).getD bn dflt = _
        rw [getD_set_same _ bn _ dflt (by omega)]
        simp
      | succ k2 =>
        simp only [List.length_cons] at hk
        have hstep := hwritten k2 dflt (by omega)
        rw [show bn + (k2 + 1) = bn + 1 + k2 by omega, hstep]
        simp
/-- The sequential reader steps over a serialized SystemTime whose fields
are in range and whose epoch offset does not overflow. -/
theorem readTime_step (t : SystemTime) (rest : List Nat)
    (hn : t.nanos < 256 ^ 4) (hs : t.secs < 256 ^ 8)
    (hok : t.secs + t.nanos / 1000000000 < 2 ^ 64) :
    readTime (serializeTime t ++ rest) = some (t, rest) := by
  have hassoc : serializeTime t ++ rest =
      encLE 8 t.secs ++ (encLE 4 t.nanos ++ rest) := by
    simp [serializeTime, List.append_assoc]
  have h1 := readLE_step_of_lt 8 t.secs (encLE 4 t.nanos ++ rest) hs
  have h2 := readLE_step_of_lt 4 t.nanos rest hn
  simp only [readTime, hassoc, h1, h2, if_pos hok]

/-- The pointer reader steps over a list of encoded in-range block
numbers. -/
theorem readPtrs_step : ∀ (ps rest : List Nat) (c : Nat), c = ps.length →
    (∀ p ∈ ps, p < 256 ^ 8) →
    readPtrs c ((ps.map (encLE 8)).flatten ++ rest) = some (ps, rest) := by
  intro ps
  induction ps with
  | nil =>
    intro rest c hc hp
    subst hc
    simp [readPtrs]
  | cons p ps ih =>
    intro rest c hc hp
    subst hc
    have hassoc : (((p :: ps).map (encLE 8)).flatten ++ rest) =
        encLE 8 p ++ ((ps.map (encLE 8)).flatten ++ rest) := by
      simp [List.append_assoc]
    have h1 := readLE_step_of_lt 8 p ((ps.map (encLE 8)).flatten ++ rest)
      (hp p (by simp))
    have h2 := ih rest ps.length rfl (fun q hq => hp q (by simp [hq]))
    simp only [List.length_cons, readPtrs, hassoc, h1, h2]

/-- Round trip of the INode image: decoding the serialization of an inode
with in-range fields and eight pointers returns the inode, ignoring any
trailing bytes. -/
theorem decodeINode_serializeINode (n : INode) (rest : List Nat)
    (hptrs : n.block_ptrs.length = 8)
    (hcn : n.cdate.nanos < 256 ^ 4) (hcs : n.cdate.secs < 256 ^ 8)
    (hcok : n.cdate.secs + n.cdate.nanos / 1000000000 < 2 ^ 64)
    (hmn : n.mdate.nanos < 256 ^ 4) (hms : n.mdate.secs < 256 ^ 8)
    (hmok : n.mdate.secs + n.mdate.nanos / 1000000000 < 2 ^ 64)
    (hfl : n.flags < 256 ^ 1) (hpm : n.perms < 256 ^ 2)
    (hlen : n.length < 256 ^ 8) (hlv : n.level < 256 ^ 1)
    (hp : ∀ p ∈ n.block_ptrs, p < 256 ^ 8) :
    decodeINode (serializeINode n ++ rest) = some n := by
  have hassoc : serializeINode n ++ rest =
      serializeTime n.cdate ++ (serializeTime n.mdate ++ (encLE 1 n.flags ++
        (encLE 2 n.perms ++ (encLE 8 n.length ++ (encLE 1 n.level ++
          ((n.block_ptrs.map (encLE 8)).flatten ++ rest)))))) := by
    simp [serializeINode, List.append_assoc]
  have h1 : ∀ r, readTime (serializeTime n.cdate ++ r) = some (n.cdate, r) :=
    fun r => readTime_step n.cdate r hcn hcs hcok
  have h2 : ∀ r, readTime (serializeTime n.mdate ++ r) = some (n.mdate, r) :=
    fun r => readTime_step n.mdate r hmn hms hmok
  have h3 : ∀ r, readLE 1 (encLE 1 n.flags ++ r) = some (n.flags, r) :=
    fun r => readLE_step_of_lt 1 n.flags r hfl
  have h4 : ∀ r, readLE 2 (encLE 2 n.perms ++ r) = some (n.perms, r) :=
    fun r => readLE_step_of_lt 2 n.perms r hpm
  have h5 : ∀ r, readLE 8 (encLE 8 n.length ++ r) = some (n.length, r) :=
    fun r => readLE_step_of_lt 8 n.length r hlen
  have h6 : ∀ r, readLE 1 (encLE 1 n.level ++ r) = some (n.level, r) :=
    fun r => readLE_step_of_lt 1 n.level r hlv
  have h7 : ∀ r, readPtrs 8 ((n.block_ptrs.map (encLE 8)).flatten ++ r) =
      some (n.block_ptrs, r) :=
    fun r => readPtrs_step n.block_ptrs r 8 hptrs.symm hp
  simp only [decodeINode, hassoc, h1, h2, h3, h4, h5, h6, h7]

/-- The bitmap loop reads back the stored blocks in order and concatenates
their bits. -/
theorem readBitmapBlocks_content (d : BlockDevice) :
    ∀ (c bn : Nat), bn + c ≤ d.config.block_count →
    readBitmapBlocks d bn c d.config.block_size =
      .ok ((List.range c).flatMap (fun j =>
        from_bytes (d.data.getD (bn + j) (List.replicate d.config.block_size 0)))) := by
  intro c
  induction c with
  | zero =>
    intro bn h
    simp [readBitmapBlocks]
  | succ k ih =>
    intro bn h
    have hrb : d.readBlock bn d.config.block_size =
        .ok (d.data.getD bn (List.replicate d.config.block_size 0)) := by
      unfold BlockDevice.readBlock
      rw [if_neg (by omega), if_neg (by simp)]
    rw [readBitmapBlocks, hrb]
    show (match readBitmapBlocks d (bn + 1) k d.config.block_size with
          | Res.ok bits =>
            Res.ok (from_bytes (d.data.getD bn (List.replicate d.config.block_size 0)) ++ bits)
          | Res.err e => Res.err e
          | Res.panicked => Res.panicked) = _
    rw [ih (bn + 1) (by omega)]
    show Res.ok (from_bytes (d.data.getD bn (List.replicate d.config.block_size 0)) ++
        (List.range k).flatMap (fun j =>
          from_bytes (d.data.getD (bn + 1 + j) (List.replicate d.config.block_size 0)))) = _
    congr 1
    rw [List.range_succ_eq_map, List.flatMap_cons, List.flatMap_map]
    have hsh : ∀ j : Nat, bn + 1 + j = bn + (j + 1) := by
      intro j
      omega
    simp only [Nat.add_zero, Function.comp, hsh]

/-- The inode loop reads back the stored blocks in order, decoding each to
the prescribed inode. -/
theorem readINodes_content (d : BlockDevice) :
    ∀ (c bn : Nat) (G : Nat → INode), bn + c ≤ d.config.block_count →
    (∀ j, j < c →
      decodeINode (d.data.getD (bn + j) (List.replicate d.config.block_size 0)) =
        some (G j)) →
    readINodes d bn c d.config.block_size = .ok ((List.range c).map G) := by
  intro c
  induction c with
  | zero =>
    intro bn G h hG
    simp [readINodes]
  | succ k ih =>
    intro bn G h hG
    have hrb : d.readBlock bn d.config.block_size =
        .ok (d.data.getD bn (List.replicate d.config.block_size 0)) := by
      unfold BlockDevice.readBlock
      rw [if_neg (by omega), if_neg (by simp)]
    rw [readINodes, hrb]
    have hdec := hG 0 (by omega)
    rw [show bn + 0 = bn by omega] at hdec
    show (match decodeINode (d.data.getD bn (List.replicate d.config.block_size 0)) with
          | some node =>
            (match readINodes d (bn + 1) k d.config.block_size with
             | Res.ok nodes => Res.ok (node :: nodes)
             | Res.err e => Res.err e
             | Res.panicked => Res.panicked)
          | none => Res.err ResError.Bincode) = _
    rw [hdec]
    have hrest := ih (bn + 1) (fun j => G (j + 1)) (by omega)
      (fun j hj => by
        rw [show bn + 1 + j = bn + (j + 1) by omega]
        exact hG (j + 1) (by omega))
    show (match readINodes d (bn + 1) k d.config.block_size with
          | Res.ok nodes => Res.ok (G 0 :: nodes)
          | Res.err e => Res.err e
          | Res.panicked => Res.panicked) = _
    rw [hrest]
    show Res.ok (G 0 :: (List.range k).map (fun j => G (j + 1))) = _
    congr 1
    rw [List.range_succ_eq_map, List.map_cons, List.map_map]
    rfl
/-- getD on a replicate at an in-range index returns the repeated value. -/
theorem getD_replicate {α : Type} (n : Nat) (a : α) (i : Nat) (d : α) (h : i < n) :
    (List.replicate n a).getD i d = a := by
  rw [List.getD_eq_getElem?_getD, List.getElem?_replicate, if_pos h]
  rfl

/-- Marking blocks used never changes the size of the bit vector. -/
theorem foldl_set_length : ∀ (l : List Nat) (m : BlockMap),
    (l.foldl (fun m i => BlockMap.set m i true) m).vec.length = m.vec.length := by
  intro l
  induction l with
  | nil => intro m; rfl
  | cons x xs ih =>
    intro m
    rw [List.foldl_cons, ih]
    simp [BlockMap.set]

/-- flatMap over an initial segment only depends on the values below the
bound. -/
theorem flatMap_congr_range {α : Type} (n : Nat) (f g : Nat → List α)
    (h : ∀ j, j < n → f j = g j) :
    (List.range n).flatMap f = (List.range n).flatMap g := by
  induction n with
  | zero => rfl
  | succ k ih =>
    rw [List.range_succ, List.flatMap_append, List.flatMap_append,
        ih (fun j hj => h j (by omega))]
    simp [h k (by omega)]

/-- Running MasterBlock::write_sync_status on a full-length device with room
for the 29-byte image: the flipped clone is adopted and block 0 is replaced
by its padded image. -/
theorem write_sync_status_run (mb : MasterBlock) (d : BlockDevice) (status : Bool)
    (hbs : mb.block_size = d.config.block_size)
    (h29 : 29 ≤ mb.block_size)
    (hfull : d.data.length = d.config.block_count)
    (hbc : 0 < d.config.block_count) :
    mb.write_sync_status d status =
      .ok ({ mb with flags := setFlag mb.flags MasterBlockFlags.SYNCED status },
           { config := d.config,
             data := d.data.set 0
               (serializeMasterBlock
                  { mb with flags := setFlag mb.flags MasterBlockFlags.SYNCED status } ++
                List.replicate (mb.block_size - 29) 0) }) := by
  have hser : serializeInto
      ({ mb with flags := setFlag mb.flags MasterBlockFlags.SYNCED status } :
        MasterBlock).block_size
      (serializeMasterBlock
        { mb with flags := setFlag mb.flags MasterBlockFlags.SYNCED status }) =
      .ok (serializeMasterBlock
            { mb with flags := setFlag mb.flags MasterBlockFlags.SYNCED status } ++
          List.replicate (mb.block_size - 29) 0) := by
    unfold serializeInto
    rw [serializeMasterBlock_length, if_pos (show (29 : Nat) ≤ mb.block_size from h29)]
  have hbuflen : (serializeMasterBlock
        { mb with flags := setFlag mb.flags MasterBlockFlags.SYNCED status } ++
      List.replicate (mb.block_size - 29) 0).length = d.config.block_size := by
    simp only [List.length_append, List.length_replicate, serializeMasterBlock_length]
    omega
  have hw := writeBlock_full d 0
    (serializeMasterBlock
        { mb with flags := setFlag mb.flags MasterBlockFlags.SYNCED status } ++
      List.replicate (mb.block_size - 29) 0) hfull hbc hbuflen
  rw [MasterBlock.write_sync_status, MasterBlock.write, hser]
  show (match d.writeBlock MASTER_BLOCK_NUMBER
          (serializeMasterBlock
              { mb with flags := setFlag mb.flags MasterBlockFlags.SYNCED status } ++
            List.replicate (mb.block_size - 29) 0) with
        | Res.ok d2 =>
          Res.ok ({ mb with flags := setFlag mb.flags MasterBlockFlags.SYNCED status }, d2)
        | Res.err e => Res.err e
        | Res.panicked => Res.panicked) = _
  have hm0 : MASTER_BLOCK_NUMBER = 0 := rfl
  rw [hm0, hw]

/-- Closing the freshly formatted file system on a fresh device whose
geometry leaves room for the metadata and whose bitmap does not fill its
final block to the last byte: the close succeeds and the device afterwards
holds the serialized master block at block 0, the bitmap chunks from block
1, the zero-padded final bitmap chunk, and the serialized fresh inodes from
block 2 + bc / (8 * bs). -/
theorem c3_close_spec (bs bc : Nat) (now : SystemTime)
    (hbs : 128 ≤ bs) (hfit : 12 + bc / (8 * bs) ≤ bc)
    (hmod : bc % (8 * bs) ≤ 8 * bs - 8) :
    ∃ d4 : BlockDevice,
      (c3fsGen bs bc now).close = .ok d4 ∧
      d4.config = (freshDevice bs bc).config ∧
      d4.data.length = bc ∧
      (∀ dflt, d4.data.getD 0 dflt =
        serializeMasterBlock (MasterBlock.new bs bc 10) ++ List.replicate (bs - 29) 0) ∧
      (∀ j dflt, j < bc / (8 * bs) →
        d4.data.getD (1 + j) dflt =
          ((to_bytes (c3fsGen bs bc now).block_map.vec).drop (j * bs)).take bs) ∧
      (∀ dflt, d4.data.getD (1 + bc / (8 * bs)) dflt =
        (to_bytes (c3fsGen bs bc now).block_map.vec).drop (bc / (8 * bs) * bs) ++
          List.replicate (bs - (bc % (8 * bs) + 7) / 8) 0) ∧
      (∀ k dflt, k < 10 →
        d4.data.getD (2 + bc / (8 * bs) + k) dflt =
          serializeINode (INode.new now) ++ List.replicate (bs - 100) 0) := by
  set q := bc / (8 * bs) with hqdef
  set r := bc % (8 * bs) with hrdef
  set s := (r + 7) / 8 with hsdef
  have hbs0 : 0 < bs := by omega
  have hkey : 8 * bs * q + r = bc := Nat.div_add_mod bc (8 * bs)
  have hkey2 : 8 * (bs * q) + r = bc := by rw [← hkey]; ring
  have hslt : s < bs := by omega
  have e1 : (c3fsGen bs bc now).master_block = MasterBlock.new bs bc 10 := rfl
  have e2 : (c3fsGen bs bc now).cache.device = freshDevice bs bc := rfl
  have e3 : (c3fsGen bs bc now).cache.entries = [] := rfl
  have e4 : (c3fsGen bs bc now).inode_map.vec = List.replicate 10 (INode.new now) := rfl
  have e5 : (MasterBlock.new bs bc 10).block_map = 1 := rfl
  have e6 : (MasterBlock.new bs bc 10).block_size = bs := rfl
  have hdd : bc / bs / 8 = q := by
    rw [Nat.div_div_eq_div_mul, Nat.mul_comm bs 8]
  have e7 : (MasterBlock.new bs bc 10).inode_map = 2 + q := by
    show 2 + bc / bs / 8 = 2 + q
    rw [hdd]
  have hVlen : (c3fsGen bs bc now).block_map.vec.length = bc := by
    show ((List.range ((MasterBlock.new bs bc 10).block_map_blocks + 10)).foldl
      (fun m i => BlockMap.set m i true) (BlockMap.new bc)).vec.length = bc
    rw [foldl_set_length]
    simp [BlockMap.new]
  have hbmlen : (to_bytes (c3fsGen bs bc now).block_map.vec).length = bs * q + s := by
    rw [to_bytes_length, hVlen]
    omega
  have hdiv : (to_bytes (c3fsGen bs bc now).block_map.vec).length / bs = q := by
    rw [hbmlen, Nat.add_comm, Nat.add_mul_div_left s q hbs0, Nat.div_eq_of_lt hslt]
    omega
  obtain ⟨d1, hrun1, hcfg1, hlen1, hun1, hwr1⟩ :=
    writeFullChunks_spec bs hbs0 q (to_bytes (c3fsGen bs bc now).block_map.vec)
      (freshDevice bs bc) 1 hdiv rfl (by simp [freshDevice])
      (show 1 + q ≤ (freshDevice bs bc).config.block_count by
        show 1 + q ≤ bc
        omega)
  have hd1len : d1.data.length = bc := by
    rw [hlen1]
    simp [freshDevice]
  have hd1bs : d1.config.block_size = bs := by rw [hcfg1]; rfl
  have hd1bc : d1.config.block_count = bc := by rw [hcfg1]; rfl
  set L := (to_bytes (c3fsGen bs bc now).block_map.vec).drop (q * bs) with hLdef
  have hLlen : L.length = s := by
    rw [hLdef]
    simp only [List.length_drop]
    rw [hbmlen, Nat.mul_comm q bs]
    omega
  have hB : ∃ d2, (if L = [] then Res.ok d1
        else d1.writeBlock (1 + q) (L ++ List.replicate (bs - L.length) 0)) = .ok d2 ∧
      d2.config = (freshDevice bs bc).config ∧
      d2.data.length = bc ∧
      (∀ j dflt, j ≠ 1 + q → d2.data.getD j dflt = d1.data.getD j dflt) ∧
      (∀ dflt, d2.data.getD (1 + q) dflt = L ++ List.replicate (bs - s) 0) := by
    by_cases hs0 : s = 0
    · have hLnil : L = [] := List.eq_nil_of_length_eq_zero (by rw [hLlen, hs0])
      refine ⟨d1, by rw [if_pos hLnil], hcfg1, hd1len, fun j dflt hj => rfl, ?_⟩
      intro dflt
      rw [hLnil, hs0]
      simp only [Nat.sub_zero, List.nil_append]
      rw [hun1 (1 + q) dflt (Or.inr (by omega))]
      show (List.replicate bc (List.replicate bs 0)).getD (1 + q) dflt =
        List.replicate bs 0
      exact getD_replicate _ _ _ _ (by omega)
    · have hblen : (L ++ List.replicate (bs - L.length) 0).length =
          d1.config.block_size := by
        simp only [List.length_append, List.length_replicate, hLlen, hd1bs]
        omega
      have hw2 := writeBlock_full d1 (1 + q) (L ++ List.replicate (bs - L.length) 0)
        (by rw [hd1len, hd1bc]) (by rw [hd1bc]; omega) hblen
      have hLne : L ≠ [] := by
        intro hnil
        rw [hnil] at hLlen
        simp at hLlen
        omega
      refine ⟨{ config := d1.config,
                 data := d1.data.set (1 + q) (L ++ List.replicate (bs - L.length) 0) },
        by rw [if_neg hLne, hw2], hcfg1, ?_, ?_, ?_⟩
      · show (d1.data.set (1 + q) _).length = bc
        simp [hd1len]
      · intro j dflt hj
        show (d1.data.set (1 + q) _).getD j dflt = d1.data.getD j dflt
        exact getD_set_other d1.data (1 + q) j _ dflt (fun h => hj h.symm)
      · intro dflt
        show (d1.data.set (1 + q) _).getD (1 + q) dflt = _
        rw [getD_set_same d1.data (1 + q) _ dflt (by rw [hd1len]; omega), hLlen]
  obtain ⟨d2, hrun2, hcfg2, hd2len, hun2, hwr2⟩ := hB
  have hd2bs : d2.config.block_size = bs := by rw [hcfg2]; rfl
  have hd2bc : d2.config.block_count = bc := by rw [hcfg2]; rfl
  obtain ⟨d3, hrun3, hcfg3, hd3len, hun3, hwr3⟩ :=
    writeINodes_spec (List.replicate 10 (INode.new now)) d2 (2 + q) bs
      hd2bs.symm (by rw [hd2len, hd2bc])
      (by simp only [List.length_replicate, hd2bc]; omega)
      (fun node hn => by rw [List.eq_of_mem_replicate hn]; rfl)
      (by omega)
  have hd3bs : d3.config.block_size = bs := by rw [hcfg3, hd2bs]
  have hd3bc : d3.config.block_count = bc := by rw [hcfg3, hd2bc]
  have hd3len2 : d3.data.length = bc := by rw [hd3len, hd2len]
  have harg : writeFullChunks (c3fsGen bs bc now).cache.device
      (c3fsGen bs bc now).master_block.block_map
      (c3fsGen bs bc now).master_block.block_size
      (to_bytes (c3fsGen bs bc now).block_map.vec) = .ok (d1, 1 + q, L) := by
    rw [e2, e1, e5, e6]
    exact hrun1
  have hwrite : (c3fsGen bs bc now).write = .ok d3 := by
    simp only [FileSystem.write]
    rw [harg]
    show (match (if L = [] then Res.ok d1
            else d1.writeBlock (1 + q)
              (L ++ List.replicate
                ((c3fsGen bs bc now).master_block.block_size - L.length) 0)) with
          | Res.ok d2x =>
            if 1 + q < (c3fsGen bs bc now).master_block.inode_map then
              (match writeINodes d2x (c3fsGen bs bc now).master_block.inode_map
                  (c3fsGen bs bc now).master_block.block_size
                  (c3fsGen bs bc now).inode_map.vec with
               | Res.ok d3x => writeCacheEntries d3x (c3fsGen bs bc now).cache.entries
               | Res.err e => Res.err e
               | Res.panicked => Res.panicked)
            else Res.panicked
          | Res.err e => Res.err e
          | Res.panicked => Res.panicked) = Res.ok d3
    rw [e1, e6, e7, e4, e3, hrun2]
    show (if 1 + q < 2 + q then
          (match writeINodes d2 (2 + q) bs (List.replicate 10 (INode.new now)) with
           | Res.ok d3x => writeCacheEntries d3x []
           | Res.err e => Res.err e
           | Res.panicked => Res.panicked)
          else Res.panicked) = Res.ok d3
    rw [if_pos (by omega), hrun3]
    show writeCacheEntries d3 [] = Res.ok d3
    rfl
  have hsync := write_sync_status_run (MasterBlock.new bs bc 10) d3 true
    (by rw [e6, hd3bs]) (by rw [e6]; omega) (by rw [hd3len2, hd3bc]) (by rw [hd3bc]; omega)
  have hflagT : setFlag (MasterBlock.new bs bc 10).flags MasterBlockFlags.SYNCED true =
      (MasterBlock.new bs bc 10).flags := by
    show setFlag MasterBlockFlags.SYNCED MasterBlockFlags.SYNCED true = MasterBlockFlags.SYNCED
    decide
  rw [hflagT] at hsync
  have hupd : ({ MasterBlock.new bs bc 10 with
      flags := (MasterBlock.new bs bc 10).flags } : MasterBlock) =
      MasterBlock.new bs bc 10 := rfl
  rw [hupd] at hsync
  rw [e6] at hsync
  have hclose : (c3fsGen bs bc now).close =
      .ok { config := d3.config,
            data := d3.data.set 0
              (serializeMasterBlock (MasterBlock.new bs bc 10) ++
               List.replicate (bs - 29) 0) } := by
    simp only [FileSystem.close]
    rw [hwrite]
    show (match (c3fsGen bs bc now).master_block.write_sync_status d3 true with
          | Res.ok r => Res.ok r.2
          | Res.err e => Res.err e
          | Res.panicked => Res.panicked) = _
    rw [e1, hsync]
  refine ⟨_, hclose, ?_, ?_, ?_, ?_, ?_, ?_⟩
  · show d3.config = (freshDevice bs bc).config
    rw [hcfg3, hcfg2]
  · show (d3.data.set 0 _).length = bc
    simp [hd3len2]
  · intro dflt
    show (d3.data.set 0 _).getD 0 dflt = _
    exact getD_set_same d3.data 0 _ dflt (by rw [hd3len2]; omega)
  · intro j dflt hj
    show (d3.data.set 0 _).getD (1 + j) dflt = _
    rw [getD_set_other d3.data 0 (1 + j) _ dflt (by omega)]
    rw [hun3 (1 + j) dflt (Or.inl (by omega))]
    rw [hun2 (1 + j) dflt (by omega)]
    exact hwr1 j dflt hj
  · intro dflt
    show (d3.data.set 0 _).getD (1 + q) dflt = _
    rw [getD_set_other d3.data 0 (1 + q) _ dflt (by positivity)]
    rw [hun3 (1 + q) dflt (Or.inl (by omega))]
    exact hwr2 dflt
  · intro k dflt hk
    show (d3.data.set 0 _).getD (2 + q + k) dflt = _
    rw [getD_set_other d3.data 0 (2 + q + k) _ dflt (by positivity)]
    have hstep := hwr3 k dflt (by simp; omega)
    rw [show 2 + q + k = (2 + q) + k by omega, hstep]
    rw [getD_replicate _ _ _ _ (by omega)]
/-- Re-reading the device produced by c3_close_spec: the mount succeeds, the
bitmap bits reassemble to the original bit vector, the inode table decodes
to the original fresh inodes, the returned master block is the stored one
with SYNCED cleared, and the device has the cleared image persisted at
block 0. -/
theorem c3_read_run (bs bc : Nat) (now : SystemTime) (d4 : BlockDevice)
    (hbs : 128 ≤ bs) (hbs2 : bs < 256 ^ 2) (hbc : bc < 256 ^ 8)
    (hfit : 12 + bc / (8 * bs) ≤ bc)
    (hmod : bc % (8 * bs) ≤ 8 * bs - 8)
    (hn : now.nanos < 256 ^ 4)
    (hok : now.secs + now.nanos / 1000000000 < 2 ^ 64)
    (hcfg : d4.config = (freshDevice bs bc).config)
    (hlen : d4.data.length = bc)
    (hg0 : ∀ dflt, d4.data.getD 0 dflt =
      serializeMasterBlock (MasterBlock.new bs bc 10) ++ List.replicate (bs - 29) 0)
    (hgchunk : ∀ j dflt, j < bc / (8 * bs) →
      d4.data.getD (1 + j) dflt =
        ((to_bytes (c3fsGen bs bc now).block_map.vec).drop (j * bs)).take bs)
    (hglast : ∀ dflt, d4.data.getD (1 + bc / (8 * bs)) dflt =
      (to_bytes (c3fsGen bs bc now).block_map.vec).drop (bc / (8 * bs) * bs) ++
        List.replicate (bs - (bc % (8 * bs) + 7) / 8) 0)
    (hgnode : ∀ k dflt, k < 10 →
      d4.data.getD (2 + bc / (8 * bs) + k) dflt =
        serializeINode (INode.new now) ++ List.replicate (bs - 100) 0) :
    FileSystem.read d4 =
      .ok { file_system :=
              { master_block := { MasterBlock.new bs bc 10 with flags := 0 },
                block_map := (c3fsGen bs bc now).block_map,
                inode_map := (c3fsGen bs bc now).inode_map,
                cache := Cache.new
                  { config := d4.config,
                    data := d4.data.set 0
                      (serializeMasterBlock { MasterBlock.new bs bc 10 with flags := 0 } ++
                       List.replicate (bs - 29) 0) } },
            clean_mount := true } := by
  set q := bc / (8 * bs) with hqdef
  set r := bc % (8 * bs) with hrdef
  set s := (r + 7) / 8 with hsdef
  have hbs0 : 0 < bs := by omega
  have hkey : 8 * bs * q + r = bc := Nat.div_add_mod bc (8 * bs)
  have hkey2 : 8 * (bs * q) + r = bc := by rw [← hkey]; ring
  have hslt : s < bs := by omega
  have hble1 : 1 + (1 + q) ≤ bc := by omega
  have hble2 : 2 + q + 10 ≤ bc := by omega
  have hbcpos : 0 < bc := Nat.lt_of_lt_of_le (by norm_num) hfit
  have hsec : now.secs < 256 ^ 8 := by
    have h64 : (256 : Nat) ^ 8 = 2 ^ 64 := by norm_num
    omega
  have e6 : (MasterBlock.new bs bc 10).block_size = bs := rfl
  have hdd : bc / bs / 8 = q := by
    rw [Nat.div_div_eq_div_mul, Nat.mul_comm bs 8]
  have hVlen : (c3fsGen bs bc now).block_map.vec.length = bc := by
    show ((List.range ((MasterBlock.new bs bc 10).block_map_blocks + 10)).foldl
      (fun m i => BlockMap.set m i true) (BlockMap.new bc)).vec.length = bc
    rw [foldl_set_length]
    simp [BlockMap.new]
  have hd4bs : d4.config.block_size = bs := by rw [hcfg]; rfl
  have hd4bc : d4.config.block_count = bc := by rw [hcfg]; rfl
  have hm0 : MASTER_BLOCK_NUMBER = 0 := rfl
  have hrb : d4.readBlock MASTER_BLOCK_NUMBER d4.config.block_size =
      .ok (serializeMasterBlock (MasterBlock.new bs bc 10) ++
        List.replicate (bs - 29) 0) := by
    unfold BlockDevice.readBlock
    rw [if_neg (by rw [hm0, hd4bc]; exact Nat.not_le.mpr hbcpos), if_neg (by simp)]
    rw [hm0, hg0]
  have hdes : deserializeMasterBlock (serializeMasterBlock (MasterBlock.new bs bc 10) ++
      List.replicate (bs - 29) 0) = some (MasterBlock.new bs bc 10) := by
    apply deserialize_serialize_mb
    · exact hbs2
    · exact hbc
    · show (10 : Nat) < 256 ^ 2
      decide
    · show (1 : Nat) < 256 ^ 8
      norm_num
    · show 2 + bc / bs / 8 < 256 ^ 8
      rw [hdd]
      omega
    · show (128 : Nat) < 256 ^ 1
      decide
  set B := (List.range (1 + q)).flatMap
    (fun j => from_bytes (d4.data.getD (1 + j) (List.replicate bs 0))) with hBdef
  have hbits : readBitmapBlocks d4 1 (1 + q) bs = .ok B := by
    have hb0 := readBitmapBlocks_content d4 (1 + q) 1 (by rw [hd4bc]; exact hble1)
    rw [hd4bs] at hb0
    rw [hb0]
  have hdecOne : decodeINode (serializeINode (INode.new now) ++
      List.replicate (bs - 100) 0) = some (INode.new now) := by
    apply decodeINode_serializeINode
    · simp [INode.new]
    · exact hn
    · exact hsec
    · exact hok
    · exact hn
    · exact hsec
    · exact hok
    · show INodeFlags.FREE < 256 ^ 1
      decide
    · show (0 : Nat) < 256 ^ 2
      decide
    · show (0 : Nat) < 256 ^ 8
      norm_num
    · show (0 : Nat) < 256 ^ 1
      decide
    · intro p hp
      have hp0 : p = 0 := List.eq_of_mem_replicate hp
      rw [hp0]
      norm_num
  have hnods : readINodes d4 (2 + q) 10 bs =
      .ok ((List.range 10).map (fun _ => INode.new now)) := by
    have hn0 := readINodes_content d4 10 (2 + q) (fun _ => INode.new now)
      (by rw [hd4bc]; exact hble2)
      (fun j hj => by rw [hgnode j _ hj]; exact hdecOne)
    rw [hd4bs] at hn0
    rw [hn0]
  have hsyncF := write_sync_status_run (MasterBlock.new bs bc 10) d4 false
    (by rw [e6, hd4bs]) (by rw [e6]; omega) (by rw [hlen, hd4bc])
    (by rw [hd4bc]; exact hbcpos)
  have hflagF : setFlag (MasterBlock.new bs bc 10).flags MasterBlockFlags.SYNCED false =
      0 := by
    show setFlag MasterBlockFlags.SYNCED MasterBlockFlags.SYNCED false = 0
    decide
  rw [hflagF] at hsyncF
  rw [e6] at hsyncF
  have hBtake : B.take bc = (c3fsGen bs bc now).block_map.vec := by
    rw [hBdef, Nat.add_comm 1 q, List.range_succ, List.flatMap_append, List.flatMap_cons,
        List.flatMap_nil, List.append_nil]
    rw [flatMap_congr_range q _
      (fun j => from_bytes
        (((to_bytes (c3fsGen bs bc now).block_map.vec).drop (j * bs)).take bs))
      (fun j hj => by rw [hgchunk j _ hj])]
    rw [flatMap_from_bytes, flatMap_chunks]
    rw [hglast (List.replicate bs 0)]
    rw [from_bytes_append, from_bytes_replicate_zero]
    rw [← List.append_assoc, ← from_bytes_append, List.take_append_drop,
        from_bytes_to_bytes]
    rw [List.append_assoc]
    rw [List.take_left' hVlen]
  have hbmEq : ({ vec := B.take bc } : BlockMap) = (c3fsGen bs bc now).block_map := by
    rw [hBtake]
  have hvecEq : ({ vec := (List.range 10).map (fun _ => INode.new now) } : INodeMap) =
      (c3fsGen bs bc now).inode_map := by
    have hmapc : (List.range 10).map (fun _ => INode.new now) =
        List.replicate 10 (INode.new now) := by
      simp
    rw [hmapc]
    rfl
  have hclean : flagsContains MasterBlockFlags.SYNCED MasterBlockFlags.SYNCED = true := by
    decide
  simp only [FileSystem.read]
  rw [hrb]
  show (match deserializeMasterBlock (serializeMasterBlock (MasterBlock.new bs bc 10) ++
          List.replicate (bs - 29) 0) with
        | some master_block =>
          if master_block.block_size = 0 then Res.panicked
          else
            match readBitmapBlocks d4 master_block.block_map
                master_block.block_map_blocks master_block.block_size with
            | Res.ok bits =>
              if master_block.block_map + master_block.block_map_blocks ≤
                  master_block.inode_map then
                match readINodes d4 master_block.inode_map master_block.inode_count
                    master_block.block_size with
                | Res.ok nodes =>
                  (match master_block.write_sync_status d4 false with
                   | Res.ok r =>
                     Res.ok (Mount.mk
                       (FileSystem.mk r.1
                         (BlockMap.mk (bits.take master_block.block_count))
                         (INodeMap.mk nodes) (Cache.new r.2))
                       (flagsContains master_block.flags MasterBlockFlags.SYNCED))
                   | Res.err e => Res.err e
                   | Res.panicked => Res.panicked)
                | Res.err e => Res.err e
                | Res.panicked => Res.panicked
              else Res.panicked
            | Res.err e => Res.err e
            | Res.panicked => Res.panicked
        | none => Res.err ResError.Bincode) = _
  rw [hdes]
  show (if bs = 0 then Res.panicked
        else
          match readBitmapBlocks d4 1 (1 + bc / bs / 8) bs with
          | Res.ok bits =>
            if 1 + (1 + bc / bs / 8) ≤ 2 + bc / bs / 8 then
              match readINodes d4 (2 + bc / bs / 8) 10 bs with
              | Res.ok nodes =>
                (match (MasterBlock.new bs bc 10).write_sync_status d4 false with
                 | Res.ok r =>
                   Res.ok (Mount.mk
                     (FileSystem.mk r.1 (BlockMap.mk (bits.take bc))
                       (INodeMap.mk nodes) (Cache.new r.2))
                     (flagsContains MasterBlockFlags.SYNCED MasterBlockFlags.SYNCED))
                 | Res.err e => Res.err e
                 | Res.panicked => Res.panicked)
              | Res.err e => Res.err e
              | Res.panicked => Res.panicked
            else Res.panicked
          | Res.err e => Res.err e
          | Res.panicked => Res.panicked) = _
  rw [if_neg (show ¬(bs = 0) by omega), hdd, hbits]
  show (if 1 + (1 + q) ≤ 2 + q then
        match readINodes d4 (2 + q) 10 bs with
        | Res.ok nodes =>
          (match (MasterBlock.new bs bc 10).write_sync_status d4 false with
           | Res.ok r =>
             Res.ok (Mount.mk
               (FileSystem.mk r.1 (BlockMap.mk (B.take bc))
                 (INodeMap.mk nodes) (Cache.new r.2))
               (flagsContains MasterBlockFlags.SYNCED MasterBlockFlags.SYNCED))
           | Res.err e => Res.err e
           | Res.panicked => Res.panicked)
        | Res.err e => Res.err e
        | Res.panicked => Res.panicked
      else Res.panicked) = _
  rw [if_pos (by omega), hnods]
  show (match (MasterBlock.new bs bc 10).write_sync_status d4 false with
        | Res.ok r =>
          Res.ok (Mount.mk
            (FileSystem.mk r.1 (BlockMap.mk (B.take bc))
              (INodeMap.mk ((List.range 10).map (fun _ => INode.new now)))
              (Cache.new r.2))
            (flagsContains MasterBlockFlags.SYNCED MasterBlockFlags.SYNCED))
        | Res.err e => Res.err e
        | Res.panicked => Res.panicked) = _
  rw [hbmEq, hvecEq, hclean, hsyncF]
  rfl
/-- Claim C3 (corrected): on every geometry where the metadata fits
(12 + bc / (8 bs) blocks at most bc), the block size holds a serialized
master block and inode and is a valid u16, the block count is a valid u64,
the bitmap does not end within the last seven bytes of its final block
(otherwise FileSystem::write's cursor assert panics), and the format time
survives serde, the round trip new-close-read succeeds, and the remounted
file system has the BlockMap and INodeMap of the closed one with
clean_mount = true; the MasterBlock however comes back with the SYNCED flag
cleared by the mount, so its contents equal the closed master block only
after clearing SYNCED, not verbatim. -/
theorem claim_C3_roundtrip (bs bc : Nat) (now : SystemTime)
    (hbs : 128 ≤ bs) (hbs2 : bs < 256 ^ 2) (hbc : bc < 256 ^ 8)
    (hfit : 12 + bc / (8 * bs) ≤ bc)
    (hmod : bc % (8 * bs) ≤ 8 * bs - 8)
    (hn : now.nanos < 256 ^ 4)
    (hok : now.secs + now.nanos / 1000000000 < 2 ^ 64) :
    (c3fsGen bs bc now).close = .ok (c3closedDev bs bc now) ∧
    FileSystem.read (c3closedDev bs bc now) = .ok (c3remount bs bc now) ∧
    (c3remount bs bc now).clean_mount = true ∧
    (c3remount bs bc now).file_system.block_map = (c3fsGen bs bc now).block_map ∧
    (c3remount bs bc now).file_system.inode_map = (c3fsGen bs bc now).inode_map ∧
    (c3remount bs bc now).file_system.master_block =
      { (c3fsGen bs bc now).master_block with flags := 0 } := by
  obtain ⟨d4, hclose, hcfg, hlen, hg0, hgchunk, hglast, hgnode⟩ :=
    c3_close_spec bs bc now hbs hfit hmod
  have hread := c3_read_run bs bc now d4 hbs hbs2 hbc hfit hmod hn hok hcfg hlen
    hg0 hgchunk hglast hgnode
  have hcd : c3closedDev bs bc now = d4 := by
    rw [c3closedDev, hclose]
    rfl
  have hrm : c3remount bs bc now =
      { file_system :=
          { master_block := { MasterBlock.new bs bc 10 with flags := 0 },
            block_map := (c3fsGen bs bc now).block_map,
            inode_map := (c3fsGen bs bc now).inode_map,
            cache := Cache.new
              { config := d4.config,
                data := d4.data.set 0
                  (serializeMasterBlock { MasterBlock.new bs bc 10 with flags := 0 } ++
                   List.replicate (bs - 29) 0) } },
        clean_mount := true } := by
    rw [c3remount, hcd, hread]
    rfl
  refine ⟨by rw [hcd]; exact hclose, by rw [hcd, hrm]; exact hread, ?_, ?_, ?_, ?_⟩
  · rw [hrm]
  · rw [hrm]
  · rw [hrm]
  · rw [hrm]
    rfl
/-- Witness for the corrected claim C3 at the geometry of spec scenario A
(block size 128, block count 16, zero format time): the hypotheses hold and
the round trip behaves as stated. -/
theorem claim_C3_roundtrip_witness :
    (128 ≤ 128 ∧ 128 < 256 ^ 2 ∧ 16 < 256 ^ 8 ∧ 12 + 16 / (8 * 128) ≤ 16 ∧
     16 % (8 * 128) ≤ 8 * 128 - 8 ∧ now0.nanos < 256 ^ 4 ∧
     now0.secs + now0.nanos / 1000000000 < 2 ^ 64) ∧
    ((c3fsGen 128 16 now0).close = .ok (c3closedDev 128 16 now0) ∧
     FileSystem.read (c3closedDev 128 16 now0) = .ok (c3remount 128 16 now0) ∧
     (c3remount 128 16 now0).clean_mount = true ∧
     (c3remount 128 16 now0).file_system.block_map = (c3fsGen 128 16 now0).block_map ∧
     (c3remount 128 16 now0).file_system.inode_map = (c3fsGen 128 16 now0).inode_map ∧
     (c3remount 128 16 now0).file_system.master_block =
       { (c3fsGen 128 16 now0).master_block with flags := 0 }) :=
  ⟨by decide,
   claim_C3_roundtrip 128 16 now0 (by decide) (by decide) (by decide) (by decide)
     (by decide) (by decide) (by decide)⟩

/-- Claim C8 amended: parse succeeds on every input whose first character is
one of the five alphabet characters, returning the flag matching that first
character and ignoring the rest; it fails with Parse exactly on nonempty
inputs whose first character is outside the alphabet; the empty input makes
nom return Incomplete, which to_result turns into a panic. -/
theorem claim_C8_amended (c : Char) (rest : List Char) :
    (c = '0' → INodeFlags.parse (c :: rest) = .ok INodeFlags.FREE) ∧
    (c = 'f' → INodeFlags.parse (c :: rest) = .ok INodeFlags.FILE) ∧
    (c = 's' → INodeFlags.parse (c :: rest) = .ok INodeFlags.LINK) ∧
    (c = 'd' → INodeFlags.parse (c :: rest) = .ok INodeFlags.PTR) ∧
    (c = 'D' → INodeFlags.parse (c :: rest) = .ok INodeFlags.DATA) ∧
    (c ≠ '0' → c ≠ 'f' → c ≠ 's' → c ≠ 'd' → c ≠ 'D' →
      INodeFlags.parse (c :: rest) = .err .Parse) ∧
    INodeFlags.parse [] = .panicked := by
  refine ⟨?_, ?_, ?_, ?_, ?_, ?_, rfl⟩
  all_goals intro h
  case _ => subst h; rfl
  case _ => subst h; rfl
  case _ => subst h; rfl
  case _ => subst h; rfl
  case _ => subst h; rfl
  case _ =>
    intro h2 h3 h4 h5
    simp [INodeFlags.parse, parse_inode_flags, h, h2, h3, h4, h5]

/-- Witness for claim C8 amended: the concrete inputs "f" and "x". -/
theorem claim_C8_amended_witness :
    INodeFlags.parse ['f'] = .ok INodeFlags.FILE ∧
    INodeFlags.parse ['x'] = .err .Parse :=
  ⟨(claim_C8_amended 'f' []).2.1 rfl,
   (claim_C8_amended 'x' []).2.2.2.2.2.1 (by decide) (by decide) (by decide)
     (by decide) (by decide)⟩
